import Mathlib

/-!
# goarder: the trigger-counter reconciliation protocol

A shallow embedding of the two programs of the repository:

* `chook` (src/chook/chook.go), the webhook receiver that writes repository rows
  to a DynamoDB table and bumps the trigger record;
* `ahoy` (src/ahoy/ahoy.go), the watcher that lists the table and runs
  `go get` / `rm -rf` for every repository.

The DynamoDB table, the process environment and the child processes are the
environment of the programs; they are explicit arguments of the embedded
functions.  Go errors are `Option String` (`none` is `nil`), Go `int` is a
64-bit two's complement integer carried in `Int`.
-/

namespace Goarder

/-! ## Go runtime pieces used by both programs -/

/-- Go `strings.Index` followed by the two slices around the match: the text before
the first occurrence of `sep` and the text after it, `none` when `sep` does not occur. -/
def cut (sep : List Char) : List Char → Option (List Char × List Char)
  | [] => if sep = [] then some ([], []) else none
  | c :: cs =>
    if sep.isPrefixOf (c :: cs) then some ([], (c :: cs).drop sep.length)
    else (cut sep cs).map (fun p => (c :: p.1, p.2))

/-- The loop of Go `strings.Split` for a non-empty separator: cut at the first
occurrence, keep the text before it, continue with the text after it. -/
def splitFuel (sep : List Char) : Nat → List Char → List (List Char)
  | 0, s => [s]
  | n + 1, s =>
    match cut sep s with
    | none => [s]
    | some (a, b) => a :: splitFuel sep n b

/-- Go `strings.Split(s, sep)` for a non-empty `sep`.  Every cut removes at least one
character, so `s.length` rounds are enough (`splitFuel_enough`). -/
def Split (s sep : String) : List String :=
  (splitFuel sep.data s.data.length s.data).map String.mk

/-- The text `s` contains the text `sep` (Go `strings.Contains`). -/
def Contains (s sep : String) : Prop := sep.data <:+: s.data

instance (s sep : String) : Decidable (Contains s sep) :=
  inferInstanceAs (Decidable (sep.data <:+: s.data))

/-- Smallest value of a Go `int` on a 64-bit platform. -/
def minInt : Int := -(2 ^ 63)

/-- Largest value of a Go `int` on a 64-bit platform. -/
def maxInt : Int := 2 ^ 63 - 1

/-- Two's complement wrap-around of Go `int` arithmetic. -/
def wrapInt (x : Int) : Int := (x + 2 ^ 63) % 2 ^ 64 - 2 ^ 63

/-- A DynamoDB attribute value: the `S` (string) and `N` (number) members of
`dynamodb.AttributeValue`.  Numbers are carried as integers, the decimal text that
`strconv.Itoa` writes and `dynamodbattribute.Unmarshal` reads back. -/
inductive AttributeValue where
  | S (s : String)
  | N (n : Int)
  deriving DecidableEq, Repr

/-- A DynamoDB item, `map[string]*dynamodb.AttributeValue`. -/
abbrev Item := List (String × AttributeValue)

/-- The call `dynamodbattribute.Unmarshal(val, &cnt)` with `cnt` a Go `int`: a number
that fits the `int` is stored, anything else is an unmarshal error. -/
def unmarshalInt : AttributeValue → Except String Int
  | .N n => if minInt ≤ n ∧ n ≤ maxInt then .ok n else .error "UnmarshalTypeError: number overflow"
  | .S _ => .error "UnmarshalTypeError: cannot unmarshal string into Go value of type int"

deriving instance DecidableEq for Except

/-- A request sent to AWS: `session.NewSession` and the three item calls; the keys are
the `repo` partition key values. -/
inductive Call where
  | NewSession
  | GetItem (key : String)
  | PutItem (item : Item)
  | DeleteItem (key : String)
  deriving DecidableEq, Repr

/-- The DynamoDB table as the programs see it: the items by partition key `repo`,
the requests sent so far, and the failure (if any) that the n-th request meets. -/
structure Dynamo where
  table : String → Option Item
  calls : List Call
  fault : Nat → Option String

/-- The call `session.NewSession(...)`, returning its error. -/
def NewSession (d : Dynamo) : Dynamo × Option String :=
  ({ d with calls := d.calls ++ [Call.NewSession] }, d.fault d.calls.length)

/-- The call `dsvc.GetItem` for the key `repo = key`: the item of the response (empty when
the table holds no such item, which is no error) and the error. -/
def GetItem (d : Dynamo) (key : String) : Dynamo × Item × Option String :=
  let d1 := { d with calls := d.calls ++ [Call.GetItem key] }
  match d.fault d.calls.length with
  | some e => (d1, [], some e)
  | none => (d1, (d.table key).getD [], none)

/-- The call `dsvc.PutItem`: the item replaces whatever the table holds under its `repo`
key; an item without a string `repo` key is refused. -/
def PutItem (d : Dynamo) (item : Item) : Dynamo × Option String :=
  let d1 := { d with calls := d.calls ++ [Call.PutItem item] }
  match d.fault d.calls.length with
  | some e => (d1, some e)
  | none =>
    match item.lookup "repo" with
    | some (.S key) => ({ d1 with table := fun k => if k = key then some item else d.table k }, none)
    | _ => (d1, some "ValidationException: missing the key repo in the item")

/-- The call `dsvc.DeleteItem` for the key `repo = key`; deleting an absent item is no error. -/
def DeleteItem (d : Dynamo) (key : String) : Dynamo × Option String :=
  let d1 := { d with calls := d.calls ++ [Call.DeleteItem key] }
  match d.fault d.calls.length with
  | some e => (d1, some e)
  | none => ({ d1 with table := fun k => if k = key then none else d.table k }, none)

/-- The count a reader of the trigger record obtains from a table: 0 when the record or
its `count` attribute is absent, the unmarshalled number otherwise. -/
def storedCount (triggerKey : String) (table : String → Option Item) : Except String Int :=
  match ((table triggerKey).getD []).lookup "count" with
  | none => .ok 0
  | some val => unmarshalInt val

/-! ## ahoy: the watcher and reconciler (src/ahoy/ahoy.go) -/

namespace Ahoy

/-- The fields of ahoy's `config` that the reconciler reads. -/
structure config where
  DynamoDBRegion : String
  DynamoDBTable : String
  DynamoDBTriggerKey : String
  Interval : Int
  GoGetEnvs : List String
  GoBinaryPath : String
  deriving DecidableEq, Repr

/-- What `dsvc.ScanPages` delivers: the pages of the table in order, and the error it
returns once every page has been handed to the callback (`none` is `nil`). -/
structure ScanResult where
  pages : List (List Item)
  err : Option String
  deriving DecidableEq, Repr

/-- An `exec.Cmd` as built by `exec.Command` and the assignments to `cmd.Env`:
`Args` starts with the program name. -/
structure Cmd where
  Path : String
  Args : List String
  Env : List String
  deriving DecidableEq, Repr

/-- The result of `cmd.Output()`: the captured bytes (`none` is a nil slice) and the error. -/
structure Output where
  out : Option String
  err : Option String
  deriving DecidableEq, Repr

/-- One child process started by `update`, tagged with the loop that started it. -/
inductive Invocation where
  | fetch (repo : String) (cmd : Cmd)
  | remove (repo : String) (cmd : Cmd)
  | notify (cmd : Cmd)
  deriving DecidableEq, Repr

/-- The environment of one call of `update`: the process environment, the outcome of
`session.NewSession`, the table scan, and the outcome of the n-th child process. -/
structure World where
  osEnviron : List String
  sessionErr : Option String
  scan : ScanResult
  run : Nat → Cmd → Output

/-- Body of the `for _, item := range page.Items` loop of `getRepos`.  `none` is the
nil-pointer panic of `*item["repo"].S` on a `repo` attribute that is not a string. -/
def scanItems (triggerKey : String) : List Item → List String → Option (List String)
  | [], repos => some repos
  | item :: rest, repos =>
    match item.lookup "repo" with
    | none => scanItems triggerKey rest repos
    | some (.S repoName) =>
      if repoName != triggerKey then scanItems triggerKey rest (repos ++ [repoName])
      else scanItems triggerKey rest repos
    | some (.N _) => none

/-- The `repo` attribute of the item, when it has one, is a string: the type of the
partition key of the table. -/
def repoIsString (item : Item) : Bool :=
  match item.lookup "repo" with
  | some (.N _) => false
  | _ => true

/-- The paging of `ScanPages` with the callback of `getRepos`: each page bumps
`pageNum`, is scanned, and the callback answers `pageNum <= maxpages`; `false` stops
the scan.  The boolean tells whether every page was delivered. -/
def scanPages (triggerKey : String) (maxpages : Nat) :
    List (List Item) → Nat → List String → Option (List String × Bool)
  | [], _, repos => some (repos, true)
  | page :: rest, pageNum, repos =>
    match scanItems triggerKey page repos with
    | none => none
    | some repos1 =>
      if pageNum + 1 ≤ maxpages then scanPages triggerKey maxpages rest (pageNum + 1) repos1
      else some (repos1, false)

/-- The function `getRepos`: the repos of the scanned items and the error; `none` is a panic. -/
def getRepos (conf : config) (w : World) : Option (List String × Option String) :=
  match w.sessionErr with
  | some e => some ([], some e)
  | none =>
    match scanPages conf.DynamoDBTriggerKey 50 w.scan.pages 0 [] with
    | none => none
    | some (repos, true) => some (repos, w.scan.err)
    | some (repos, false) => some (repos, none)

/-- The state `update` threads through its loops: the global `localRepos`, the child
processes started so far, and the lines printed so far. -/
structure RunState where
  localRepos : List String
  trace : List Invocation
  stdout : List String
  deriving DecidableEq, Repr

/-- The printing after `cmd.Output()` in both loops of `update`. -/
def reportOutput (o : Output) : List String :=
  match o.err with
  | none => []
  | some e =>
    ("len(out) = " ++ toString (o.out.getD "").utf8ByteSize ++ ", got error: '" ++ e ++ "'\n") ::
      (match o.out with
       | none => []
       | some out => [out ++ "\n"])

/-- The command of the fetch loop for one repo. -/
def fetchCmd (conf : config) (w : World) (repo : String) : Cmd :=
  let cmd : Cmd :=
    if conf.GoBinaryPath == "" then ⟨"go", ["go", "get", "-u", "-d", repo], []⟩
    else ⟨conf.GoBinaryPath, [conf.GoBinaryPath, "get", "-u", "-d", repo], []⟩
  { cmd with Env := conf.GoGetEnvs.foldl (fun env e => env ++ [e]) w.osEnviron }

/-- One iteration of the fetch loop `for _, repo := range repos`. -/
def fetchStep (conf : config) (w : World) (st : RunState) (repo : String) : RunState :=
  let cmd := fetchCmd conf w repo
  let o := w.run st.trace.length cmd
  { localRepos := st.localRepos ++ [repo]
    trace := st.trace ++ [Invocation.fetch repo cmd]
    stdout := st.stdout ++ ["performing 'go get -u -d' for repo '" ++ repo ++ "'\n"] ++ reportOutput o }

/-- The inner loop `for _, r := range repos` that clears `missing`. -/
def isMissing (repos : List String) (lrepo : String) : Bool :=
  repos.foldl (fun missing r => if r == lrepo then false else missing) true

/-- The loop that collects `reposToDelete` from `localRepos`. -/
def collectDeletes (repos : List String) : List String → List String → List String
  | [], acc => acc
  | lrepo :: rest, acc =>
    if isMissing repos lrepo then collectDeletes repos rest (acc ++ [lrepo])
    else collectDeletes repos rest acc

/-- The loop `for _, env := range conf.GoGetEnvs` of the removal phase, as far as the
`gopath` variable goes: the last `GOPATH=...` entry decides. -/
def findGopath (envs : List String) : String :=
  envs.foldl
    (fun gopath env =>
      let chunked := Split env "="
      if chunked.length > 1 then
        if chunked.getD 0 "" == "GOPATH" then chunked.getD 1 "" else gopath
      else gopath)
    ""

/-- The lines that loop prints. -/
def gopathLines (envs : List String) : List String :=
  envs.foldl
    (fun lines env =>
      let chunked := Split env "="
      lines ++ ["Have env of '" ++ env ++ "'\n"] ++
        (if chunked.length > 1 ∧ chunked.getD 0 "" == "GOPATH" then ["found GOPATH env var\n"] else []))
    []

/-- The text of the error of an empty `gopath`. -/
def gopathError : String := "GOPATH env var empty unable to determine full delete path"

/-- The command of the removal loop for one repo, once `gopath` is known to be
non-empty: `cmd.Args[3]` holds the full path. -/
def removeCmd (conf : config) (w : World) (repo : String) : Cmd :=
  let fullPathToDelete := "src/" ++ repo
  let cmd : Cmd := ⟨"rm", ["rm", "-rf", "-d", fullPathToDelete], w.osEnviron⟩
  let cmd := { cmd with Env := conf.GoGetEnvs.foldl (fun env e => env ++ [e]) cmd.Env }
  { cmd with Args := cmd.Args.set 3 (findGopath conf.GoGetEnvs ++ "/" ++ fullPathToDelete) }

/-- The removal loop `for _, repo := range reposToDelete`.  The error is the named
result `err` of `update`; `some` is the early `return err`. -/
def removeLoop (conf : config) (w : World) : List String → RunState → RunState × Option String
  | [], st => (st, none)
  | repo :: rest, st =>
    let fullPathToDelete := "src/" ++ repo
    let lines :=
      ["attempting to perform  'rm -rf' for local source of '$GOPATH/" ++ fullPathToDelete ++ "'\n",
       "attempting to perform GOPATH expansion and cmd injection\n"] ++ gopathLines conf.GoGetEnvs
    let gopath := findGopath conf.GoGetEnvs
    if gopath.length > 0 then
      let cmd := removeCmd conf w repo
      let o := w.run st.trace.length cmd
      removeLoop conf w rest
        { st with
          trace := st.trace ++ [Invocation.remove repo cmd]
          stdout := st.stdout ++ lines ++
            ["Got full path embedded in cmd of '" ++ gopath ++ "/" ++ fullPathToDelete ++ "'\n"] ++
            reportOutput o }
    else
      ({ st with stdout := st.stdout ++ lines }, some gopathError)

/-- The command of the final `systemctl restart`. -/
def notifyCmd : Cmd := ⟨"sudo", ["sudo", "/bin/systemctl", "restart", "godocs.service"], []⟩

/-- What one call of `update` leaves behind: the returned error, the global
`localRepos`, the local `reposToDelete`, the child processes started, the lines printed. -/
structure UpdateResult where
  err : Option String
  localRepos : List String
  reposToDelete : List String
  trace : List Invocation
  stdout : List String
  deriving DecidableEq, Repr

/-- The function `update`, started with the global `localRepos`; `none` is the panic of
`getRepos`. -/
def update (conf : config) (w : World) (localRepos : List String) : Option UpdateResult :=
  match getRepos conf w with
  | none => none
  | some (_, some e) => some ⟨some e, localRepos, [], [], []⟩
  | some (repos, none) =>
    let st0 : RunState :=
      ⟨localRepos, [], ["done getting repos, 'go get'ting them and ignoring errors\n"]⟩
    let st1 := repos.foldl (fetchStep conf w) st0
    let reposToDelete := collectDeletes repos st1.localRepos []
    let st2 : RunState :=
      { st1 with stdout := st1.stdout ++ reposToDelete.map (fun r => "Adding repo to delete '" ++ r ++ "'\n") }
    match removeLoop conf w reposToDelete st2 with
    | (st3, some e) => some ⟨some e, st3.localRepos, reposToDelete, st3.trace, st3.stdout⟩
    | (st3, none) =>
      some ⟨none, st3.localRepos, reposToDelete, st3.trace ++ [Invocation.notify notifyCmd], st3.stdout⟩

/-- The repos of the fetch invocations of a trace, in order. -/
def fetchedRepos : List Invocation → List String
  | [] => []
  | .fetch repo _ :: rest => repo :: fetchedRepos rest
  | _ :: rest => fetchedRepos rest

/-- The repos of the remove invocations of a trace, in order. -/
def removedRepos : List Invocation → List String
  | [] => []
  | .remove repo _ :: rest => repo :: removedRepos rest
  | _ :: rest => removedRepos rest

/-- The invocation was started by the fetch loop. -/
def isFetch : Invocation → Bool
  | .fetch _ _ => true
  | _ => false

/-- The struct `Trigger` of ahoy; `Count` is the `int` behind the pointer. -/
structure Trigger where
  Repo : String
  Count : Int
  deriving DecidableEq, Repr

/-- The method `Trigger.GetCounter`: reads the trigger record and stores its `count` in
`t.Count`, which it leaves alone when the record has no `count`.  Returns the lines printed
and the error. -/
def Trigger.GetCounter (conf : config) (t : Trigger) (d : Dynamo) :
    Trigger × Dynamo × List String × Option String :=
  match NewSession d with
  | (d1, some e) => (t, d1, [], some e)
  | (d1, none) =>
    match GetItem d1 conf.DynamoDBTriggerKey with
    | (d2, _, some e) => (t, d2, [e ++ "\n"], some e)
    | (d2, item, none) =>
      match item.lookup "count" with
      | some val =>
        match unmarshalInt val with
        | .error e => (t, d2, [], some e)
        | .ok cnt => ({ t with Count := cnt }, d2, ["Detected count as " ++ toString cnt ++ "\n"], none)
      | none => (t, d2, [], none)

/-- What one turn of the `for` loop of `main` leaves behind: the code of `os.Exit` when the
turn ends the process, the global `counter`, the global `localRepos`, the calls of `update`
made in this turn with what they returned, the table, and the lines printed. -/
structure Turn where
  exit : Option Nat
  counter : Int
  localRepos : List String
  updates : List UpdateResult
  dynamo : Dynamo
  stdout : List String

/-- One turn of the `for` loop of `main`, up to the `time.Sleep`, started with the globals
`counter` and `localRepos`; `none` is the panic of `getRepos`. -/
def mainTurn (conf : config) (d : Dynamo) (w : World) (counter : Int) (localRepos : List String) :
    Option Turn :=
  let t : Trigger := { Repo := "", Count := 0 }
  match t.GetCounter conf d with
  | (_, d1, out, some e) =>
    some ⟨some 1, counter, localRepos, [], d1, out ++ ["Fatal error, exiting: " ++ e ++ "\n"]⟩
  | (t1, d1, out, none) =>
    if counter != t1.Count then
      match update conf w localRepos with
      | none => none
      | some u =>
        match u.err with
        | some e =>
          some ⟨some 1, counter, u.localRepos, [u], d1,
            out ++ u.stdout ++ ["Fatal error, exiting: " ++ e ++ "\n"]⟩
        | none =>
          some ⟨none, t1.Count, u.localRepos, [u], d1,
            out ++ u.stdout ++
              ["set new local counter to " ++ toString t1.Count ++ "\n",
               "sleeping " ++ toString conf.Interval ++ "s before checking for updates\n"]⟩
    else
      some ⟨none, counter, localRepos, [], d1,
        out ++ ["nothing to do, sleeping\n",
          "sleeping " ++ toString conf.Interval ++ "s before checking for updates\n"]⟩

end Ahoy

/-! ## chook: the webhook receiver (src/chook/chook.go) -/

namespace Chook

/-- The `config` of chook. -/
structure config where
  ListenString : String
  DynamoDBRegion : String
  DynamoDBTable : String
  DynamoDBtriggerKey : String
  deriving DecidableEq, Repr

/-- The struct `author`. -/
structure author where
  Name : String
  Email : String
  Username : String
  deriving DecidableEq, Repr

/-- The struct `headCommit`. -/
structure headCommit where
  Id : String
  Message : String
  Author : author
  deriving DecidableEq, Repr

/-- The struct `repository`. -/
structure repository where
  SVNURL : String
  SSHURL : String
  CloneURL : String
  GITURL : String
  deriving DecidableEq, Repr

/-- The struct `githubWebhook`. -/
structure githubWebhook where
  Ref : String
  Repository : repository
  HeadCommit : headCommit
  Repo : String
  deriving DecidableEq, Repr

/-- The struct `trigger`; `Count` is the `int` behind the pointer. -/
structure trigger where
  Repo : String
  Count : Int
  deriving DecidableEq, Repr

/-- The method `trigger.dynamoFormat`. -/
def trigger.dynamoFormat (t : trigger) : Item :=
  [("repo", .S t.Repo), ("count", .N t.Count)]

/-- The method `trigger.writeDynamo`. -/
def trigger.writeDynamo (t : trigger) (d : Dynamo) : Dynamo × Option String :=
  match NewSession d with
  | (d1, some e) => (d1, some e)
  | (d1, none) => PutItem d1 t.dynamoFormat

/-- The method `trigger.getCounter`: reads the trigger record and, when it has a `count`,
writes it back incremented. -/
def trigger.getCounter (conf : config) (t : trigger) (d : Dynamo) : trigger × Dynamo × Option String :=
  match NewSession d with
  | (d1, some e) => (t, d1, some e)
  | (d1, none) =>
    match GetItem d1 conf.DynamoDBtriggerKey with
    | (d2, _, some e) => (t, d2, some e)
    | (d2, item, none) =>
      match item.lookup "count" with
      | some val =>
        match unmarshalInt val with
        | .error e => (t, d2, some e)
        | .ok cnt =>
          let tcount := wrapInt (cnt + 1)
          let t1 : trigger := { Repo := conf.DynamoDBtriggerKey, Count := tcount }
          match t1.writeDynamo d2 with
          | (d3, some e) => (t1, d3, some e)
          | (d3, none) => (t1, d3, none)
      | none => (t, d2, none)

/-- The method `githubWebhook.setRepo`. -/
def githubWebhook.setRepo (g : githubWebhook) : githubWebhook × Option String :=
  let chunks := Split g.Repository.SVNURL "//"
  if chunks.length > 1 then ({ g with Repo := chunks.getD 1 "" }, none)
  else (g, some "error parsing URL to build go get repo name")

/-- The method `githubWebhook.dynamoFormat`. -/
def githubWebhook.dynamoFormat (g : githubWebhook) : Item :=
  [("repo", .S g.Repo), ("lastCommitId", .S g.HeadCommit.Id),
   ("lastCommitMessage", .S g.HeadCommit.Message), ("lastCommitUser", .S g.HeadCommit.Author.Email)]

/-- The method `githubWebhook.deleteDynamo`. -/
def githubWebhook.deleteDynamo (g : githubWebhook) (d : Dynamo) : Dynamo × Option String :=
  match NewSession d with
  | (d1, some e) => (d1, some e)
  | (d1, none) =>
    match GetItem d1 g.Repo with
    | (d2, _, some e) => (d2, some e)
    | (d2, _, none) => DeleteItem d2 g.Repo

/-- The method `githubWebhook.writeDynamo`. -/
def githubWebhook.writeDynamo (conf : config) (g : githubWebhook) (method : String) (d : Dynamo) :
    Dynamo × Option String :=
  if g.Repo == conf.DynamoDBtriggerKey then
    (d, some "cannot delete trigger key with hook methods")
  else
    match NewSession d with
    | (d1, some e) => (d1, some e)
    | (d1, none) =>
      let ddbItem := g.dynamoFormat
      if method == "create" then PutItem d1 ddbItem
      else if method == "delete" then g.deleteDynamo d1
      else (d1, some ("unknown method '" ++ method ++ "'"))

/-- What the handler sees of an `http.Request`: the method, the error of reading the body,
and the body decoded by `json.Unmarshal` (all fields empty when it does not decode). -/
structure Request where
  Method : String
  bodyErr : Option String
  hook : githubWebhook
  deriving DecidableEq, Repr

/-- What the handler writes to the `http.ResponseWriter`. -/
structure Response where
  status : Nat
  body : String
  deriving DecidableEq, Repr

/-- The call `http.Error(w, msg, http.StatusInternalServerError)`. -/
def httpError (msg : String) : Response := ⟨500, msg ++ "\n"⟩

/-- The response of a handler that writes nothing. -/
def httpOK : Response := ⟨200, ""⟩

/-- The function `handlerCreateDelete`. -/
def handlerCreateDelete (conf : config) (r : Request) (del : Bool) (d : Dynamo) : Dynamo × Response :=
  if r.Method == "POST" then
    match r.bodyErr with
    | some _ => (d, httpError "could not read body")
    | none =>
      if r.hook.Repository.SVNURL.length > 0 then
        match r.hook.setRepo with
        | (_, some _) => (d, httpError "could not parse repo name")
        | (hook, none) =>
          let written :=
            if del then (hook.writeDynamo conf "delete" d, "dynamo delete error")
            else (hook.writeDynamo conf "create" d, "dynamo create error")
          match written with
          | ((d1, some _), msg) => (d1, httpError msg)
          | ((d1, none), _) =>
            let t : trigger := { Repo := "", Count := 0 }
            match t.getCounter conf d1 with
            | (_, d2, some _) => (d2, httpError "error retreiving trigger value")
            | (_, d2, none) => (d2, httpOK)
      else (d, httpOK)
  else (d, httpOK)

end Chook

/-! ## Example inputs -/

namespace Ahoy

/-- A configuration with the default trigger key and a mirror root. -/
def exampleConf : config :=
  ⟨"us-east-1", "goarder", "00000trigger", 20, ["GO111MODULE=off", "GOPATH=/go"], ""⟩

/-- The same configuration without a `GOPATH` entry. -/
def exampleConfNoRoot : config := { exampleConf with GoGetEnvs := ["GO111MODULE=off"] }

/-- A world whose table holds the trigger record and one row per given repo, and in which
every child process fails. -/
def exampleWorld (repos : List String) : World :=
  { osEnviron := ["HOME=/root"]
    sessionErr := none
    scan := ⟨[[("repo", .S "00000trigger"), ("count", .N 3)] ::
      repos.map (fun r => [("repo", .S r), ("lastCommitId", .S "c0ffee")])], none⟩
    run := fun _ _ => ⟨none, some "exit status 1"⟩ }

/-- A table that holds the trigger record with the given count and the row of repo `a`,
and on which every request succeeds. -/
def exampleTable (n : Int) : Dynamo :=
  ⟨fun k =>
      if k = "00000trigger" then some [("repo", .S "00000trigger"), ("count", .N n)]
      else if k = "a" then some [("repo", .S "a"), ("lastCommitId", .S "c0ffee")]
      else none,
    [], fun _ => none⟩

end Ahoy

namespace Chook

/-- A configuration with the default trigger key. -/
def exampleConf : config := ⟨":5050", "us-east-1", "goarder", "00000trigger"⟩

/-- An empty table on which every request succeeds. -/
def emptyRegistry : Dynamo := ⟨fun _ => none, [], fun _ => none⟩

/-- A table that holds only the trigger record, with the given count, and on which every
request succeeds. -/
def registryWithCount (n : Int) : Dynamo :=
  ⟨fun k => if k = "00000trigger" then some [("repo", .S "00000trigger"), ("count", .N n)] else none,
   [], fun _ => none⟩

/-- A decoded webhook body for the given `svn_url`. -/
def exampleHook (url : String) : githubWebhook :=
  ⟨"refs/heads/master", ⟨url, "", "", ""⟩, ⟨"c0ffee", "first commit", ⟨"dev", "dev@host", "dev"⟩⟩, ""⟩

/-- A `POST` request carrying that body. -/
def exampleRequest (url : String) : Request := ⟨"POST", none, exampleHook url⟩

/-- The table after `n` successive calls of `trigger.getCounter`, each on a fresh `trigger`
as `handlerCreateDelete` makes it, with no other writer in between. -/
def bumped (conf : config) (n : Nat) (d : Dynamo) : Dynamo :=
  (fun d1 => (trigger.getCounter conf ⟨"", 0⟩ d1).2.1)^[n] d

end Chook

/-! ## Splitting text -/

theorem cut_eq_none_of_absent (sep : List Char) :
    ∀ s : List Char, ¬ sep <:+: s → cut sep s = none := by
  intro s
  induction s with
  | nil =>
    intro h
    have hsep : sep ≠ [] := by
      rintro rfl
      exact h (List.infix_refl _)
    simp [cut, hsep]
  | cons c cs ih =>
    intro h
    have hpre : sep.isPrefixOf (c :: cs) = false := by
      cases hp : sep.isPrefixOf (c :: cs) with
      | false => rfl
      | true => exact absurd (List.isPrefixOf_iff_prefix.mp hp).isInfix h
    have hcs : ¬ sep <:+: cs := fun hi => h (hi.trans (List.suffix_cons c cs).isInfix)
    simp [cut, hpre, ih hcs]

theorem cut_eq_some_of_first (sep : List Char) (hsep : sep ≠ []) (b : List Char) :
    ∀ a : List Char, ¬ sep <:+: a ++ sep.dropLast → cut sep (a ++ sep ++ b) = some (a, b) := by
  intro a
  induction a with
  | nil =>
    intro _
    obtain ⟨x, xs, rfl⟩ := List.exists_cons_of_ne_nil hsep
    have hp : (x :: xs).isPrefixOf (x :: (xs ++ b)) = true :=
      List.isPrefixOf_iff_prefix.mpr (List.prefix_append (x :: xs) b)
    have hd : List.drop xs.length (xs ++ b) = b := List.drop_left _ _
    show cut (x :: xs) (x :: (xs ++ b)) = some ([], b)
    simp only [cut, hp, if_true, List.length_cons, List.drop_succ_cons, hd]
  | cons y a ih =>
    intro h
    have hpre : sep.isPrefixOf (y :: (a ++ sep ++ b)) = false := by
      cases hp : sep.isPrefixOf (y :: (a ++ sep ++ b)) with
      | false => rfl
      | true =>
        exfalso
        have h1 : sep <+: (y :: a ++ sep.dropLast) ++ ([sep.getLast hsep] ++ b) := by
          have := List.isPrefixOf_iff_prefix.mp hp
          have e : y :: (a ++ sep ++ b) = (y :: a ++ sep.dropLast) ++ ([sep.getLast hsep] ++ b) := by
            conv_lhs => rw [← List.dropLast_append_getLast hsep]
            simp
          rwa [e] at this
        have h2 : sep <+: (y :: a ++ sep.dropLast) := by
          refine List.prefix_of_prefix_length_le h1 (List.prefix_append _ _) ?_
          simp only [List.cons_append, List.length_cons, List.length_append, List.length_dropLast]
          have : 0 < sep.length := List.length_pos.mpr hsep
          omega
        exact h h2.isInfix
    have hrec : ¬ sep <:+: a ++ sep.dropLast :=
      fun hi => h (hi.trans (List.suffix_cons y _).isInfix)
    simp only [List.cons_append, List.append_assoc] at hpre ⊢
    simp only [cut, hpre]
    have := ih hrec
    simp only [List.append_assoc] at this
    simp [this]

theorem eq_append_of_cut_eq_some (sep : List Char) :
    ∀ (s a b : List Char), cut sep s = some (a, b) → s = a ++ sep ++ b := by
  intro s
  induction s with
  | nil =>
    intro a b h
    by_cases hsep : sep = []
    · simp [cut, hsep] at h
      simp [hsep, h.1, h.2]
    · simp [cut, hsep] at h
  | cons c cs ih =>
    intro a b h
    cases hp : sep.isPrefixOf (c :: cs) with
    | true =>
      simp only [cut, hp, if_true, Option.some.injEq, Prod.mk.injEq] at h
      obtain ⟨t, ht⟩ := List.isPrefixOf_iff_prefix.mp hp
      rw [← h.1, ← h.2, ← ht]
      simp
    | false =>
      simp only [cut, hp, Bool.false_eq_true, if_false, Option.map_eq_some', Prod.mk.injEq] at h
      obtain ⟨⟨a1, b1⟩, h1, h2, h3⟩ := h
      have := ih a1 b1 h1
      simp only at h2 h3
      rw [← h2, ← h3, this]
      simp

theorem present_of_cut_eq_some (sep s a b : List Char) (h : cut sep s = some (a, b)) : sep <:+: s :=
  ⟨a, b, (eq_append_of_cut_eq_some sep s a b h).symm⟩

theorem cut_ne_none_of_present (sep : List Char) :
    ∀ s : List Char, sep <:+: s → cut sep s ≠ none := by
  intro s
  induction s with
  | nil =>
    intro h
    have : sep = [] := List.eq_nil_of_infix_nil h
    simp [cut, this]
  | cons c cs ih =>
    intro h
    cases hp : sep.isPrefixOf (c :: cs) with
    | true => simp [cut, hp]
    | false =>
      have hcs : sep <:+: cs := by
        rcases List.infix_cons_iff.mp h with h1 | h1
        · have := List.isPrefixOf_iff_prefix.mpr h1
          rw [hp] at this
          exact absurd this (by decide)
        · exact h1
      have := ih hcs
      simp only [cut, hp, Bool.false_eq_true, if_false, ne_eq, Option.map_eq_none']
      exact this

theorem splitFuel_enough (sep : List Char) (hsep : sep ≠ []) :
    ∀ (n m : Nat) (s : List Char), s.length ≤ n → s.length ≤ m →
      splitFuel sep n s = splitFuel sep m s := by
  intro n
  induction n with
  | zero =>
    intro m s hn _
    have hs : s = [] := List.length_eq_zero.mp (Nat.le_zero.mp hn)
    subst hs
    cases m <;> simp [splitFuel, cut, hsep]
  | succ n ih =>
    intro m s hn hm
    cases m with
    | zero =>
      have hs : s = [] := List.length_eq_zero.mp (Nat.le_zero.mp hm)
      subst hs
      simp [splitFuel, cut, hsep]
    | succ m =>
      cases hc : cut sep s with
      | none => simp [splitFuel, hc]
      | some p =>
        obtain ⟨a, b⟩ := p
        have hs := eq_append_of_cut_eq_some sep s a b hc
        have hlen : 0 < sep.length := List.length_pos.mpr hsep
        have hb : b.length < s.length := by
          rw [hs]; simp only [List.length_append]; omega
        simp only [splitFuel, hc]
        rw [ih m b (by omega) (by omega)]

theorem splitFuel_head (sep : List Char) (hsep : sep ≠ []) (n : Nat) (b : List Char)
    (hn : b.length ≤ n) :
    (splitFuel sep n b).head? = some (match cut sep b with | none => b | some p => p.1) := by
  cases n with
  | zero =>
    have hs : b = [] := List.length_eq_zero.mp (Nat.le_zero.mp hn)
    subst hs
    simp [splitFuel, cut, hsep]
  | succ n =>
    cases hc : cut sep b with
    | none => simp [splitFuel, hc]
    | some p => obtain ⟨r, t⟩ := p; simp [splitFuel, hc]


theorem splitFuel_of_cut_none (sep : List Char) (n : Nat) (s : List Char) (h : cut sep s = none) :
    splitFuel sep n s = [s] := by
  cases n <;> simp [splitFuel, h]

theorem splitFuel_ne_nil (sep : List Char) (n : Nat) (s : List Char) : splitFuel sep n s ≠ [] := by
  cases n with
  | zero => simp [splitFuel]
  | succ n =>
    cases hc : cut sep s with
    | none => simp [splitFuel, hc]
    | some p => simp [splitFuel, hc]

theorem splitFuel_of_cut_some (sep : List Char) (hsep : sep ≠ []) (s a b : List Char)
    (h : cut sep s = some (a, b)) :
    ∃ rest, splitFuel sep s.length s = a :: (match cut sep b with | none => b | some p => p.1) :: rest := by
  have hs := eq_append_of_cut_eq_some sep s a b h
  have hlen : 0 < sep.length := List.length_pos.mpr hsep
  have hpos : s.length = (s.length - 1) + 1 := by
    rw [hs]; simp only [List.length_append]; omega
  have hb : b.length ≤ s.length - 1 := by
    rw [hs]; simp only [List.length_append]; omega
  have hh := splitFuel_head sep hsep (s.length - 1) b hb
  rw [hpos]
  simp only [splitFuel, h]
  cases hl : splitFuel sep (s.length - 1) b with
  | nil => exact absurd hl (splitFuel_ne_nil _ _ _)
  | cons x rest =>
    rw [hl] at hh
    simp only [List.head?_cons, Option.some.injEq] at hh
    exact ⟨rest, by rw [hh]⟩

namespace Chook

theorem setRepo_of_cut_none (g : githubWebhook) (h : cut "//".data g.Repository.SVNURL.data = none) :
    g.setRepo = (g, some "error parsing URL to build go get repo name") := by
  unfold githubWebhook.setRepo Split
  rw [splitFuel_of_cut_none _ _ _ h]
  simp

theorem setRepo_of_cut_some (g : githubWebhook) (a b : List Char)
    (h : cut "//".data g.Repository.SVNURL.data = some (a, b)) :
    g.setRepo =
      ({ g with Repo := String.mk (match cut "//".data b with | none => b | some p => p.1) }, none) := by
  obtain ⟨rest, hr⟩ := splitFuel_of_cut_some "//".data (by decide) _ a b h
  unfold githubWebhook.setRepo Split
  rw [hr]
  simp

/-- C6 (amended): `githubWebhook.setRepo` succeeds exactly when the URL contains `//`; without
one it returns the parse error and leaves the webhook as it was; on success the identifier
is the text after the first `//`, cut off before the next `//` when there is one (so the
whole remainder when the remainder holds no further `//`). -/
theorem setRepo_spec (g : githubWebhook) :
    (g.setRepo.2 = none ↔ Contains g.Repository.SVNURL "//") ∧
    (¬ Contains g.Repository.SVNURL "//" →
      g.setRepo = (g, some "error parsing URL to build go get repo name")) ∧
    (∀ p q : String, g.Repository.SVNURL = p ++ "//" ++ q → ¬ Contains (p ++ "/") "//" →
      (¬ Contains q "//" → g.setRepo = ({ g with Repo := q }, none)) ∧
      (∀ r t : String, q = r ++ "//" ++ t → ¬ Contains (r ++ "/") "//" →
        g.setRepo = ({ g with Repo := r }, none))) := by
  have hsep : "//".data ≠ [] := by decide
  refine ⟨?_, ?_, ?_⟩
  · cases hc : cut "//".data g.Repository.SVNURL.data with
    | none =>
      rw [setRepo_of_cut_none g hc]
      simp only [reduceCtorEq, false_iff]
      intro hcon
      exact cut_ne_none_of_present _ _ hcon hc
    | some p =>
      obtain ⟨a, b⟩ := p
      rw [setRepo_of_cut_some g a b hc]
      simp only [true_iff]
      exact present_of_cut_eq_some _ _ a b hc
  · intro hn
    exact setRepo_of_cut_none g (cut_eq_none_of_absent _ _ hn)
  · intro p q hu hp
    have hcut : cut "//".data g.Repository.SVNURL.data = some (p.data, q.data) := by
      rw [hu]
      simp only [String.data_append]
      exact cut_eq_some_of_first _ hsep _ _ hp
    rw [setRepo_of_cut_some g _ _ hcut]
    constructor
    · intro hq
      rw [cut_eq_none_of_absent _ _ hq]
    · intro r t hq hr
      have : cut "//".data q.data = some (r.data, t.data) := by
        rw [hq]
        simp only [String.data_append]
        exact cut_eq_some_of_first _ hsep _ _ hr
      rw [this]

end Chook

/-! ## ahoy: listing the registry -/

namespace Ahoy

theorem scanItems_sound (key : String) :
    ∀ (items : List Item) (acc out : List String), scanItems key items acc = some out →
      ∃ new, out = acc ++ new ∧ key ∉ new ∧
        ∀ r ∈ new, ∃ item ∈ items, item.lookup "repo" = some (.S r) := by
  intro items
  induction items with
  | nil =>
    intro acc out h
    simp only [scanItems, Option.some.injEq] at h
    exact ⟨[], by simp [h]⟩
  | cons item rest ih =>
    intro acc out h
    unfold scanItems at h
    split at h
    · obtain ⟨new, h1, h2, h3⟩ := ih acc out h
      exact ⟨new, h1, h2, fun r hr => by
        obtain ⟨i, hi, hl⟩ := h3 r hr
        exact ⟨i, List.mem_cons_of_mem _ hi, hl⟩⟩
    · rename_i repoName hlook
      split at h
      · rename_i hne
        obtain ⟨new, h1, h2, h3⟩ := ih _ out h
        refine ⟨repoName :: new, by simp [h1], ?_, ?_⟩
        · simp only [List.mem_cons, not_or]
          refine ⟨?_, h2⟩
          intro he
          simp [he] at hne
        · intro r hr
          rcases List.mem_cons.mp hr with rfl | hr
          · exact ⟨item, List.mem_cons_self _ _, hlook⟩
          · obtain ⟨i, hi, hl⟩ := h3 r hr
            exact ⟨i, List.mem_cons_of_mem _ hi, hl⟩
      · obtain ⟨new, h1, h2, h3⟩ := ih acc out h
        exact ⟨new, h1, h2, fun r hr => by
          obtain ⟨i, hi, hl⟩ := h3 r hr
          exact ⟨i, List.mem_cons_of_mem _ hi, hl⟩⟩
    · exact absurd h (by simp)

theorem scanItems_total (key : String) :
    ∀ (items : List Item) (acc : List String),
      (∀ item ∈ items, ∀ n, item.lookup "repo" ≠ some (.N n)) →
      ∃ out, scanItems key items acc = some out := by
  intro items
  induction items with
  | nil => intro acc _; exact ⟨acc, rfl⟩
  | cons item rest ih =>
    intro acc hwf
    have hrest : ∀ i ∈ rest, ∀ n, i.lookup "repo" ≠ some (.N n) :=
      fun i hi => hwf i (List.mem_cons_of_mem _ hi)
    unfold scanItems
    split
    · exact ih acc hrest
    · split
      · exact ih _ hrest
      · exact ih acc hrest
    · rename_i n hlook
      exact absurd hlook (hwf item (List.mem_cons_self _ _) n)

theorem scanPages_sound (key : String) (maxpages : Nat) :
    ∀ (pages : List (List Item)) (pageNum : Nat) (acc : List String) (res : List String × Bool),
      scanPages key maxpages pages pageNum acc = some res →
      ∃ new, res.1 = acc ++ new ∧ key ∉ new ∧
        ∀ r ∈ new, ∃ page ∈ pages, ∃ item ∈ page, item.lookup "repo" = some (.S r) := by
  intro pages
  induction pages with
  | nil =>
    intro pageNum acc res h
    simp only [scanPages, Option.some.injEq] at h
    exact ⟨[], by simp [← h]⟩
  | cons page rest ih =>
    intro pageNum acc res h
    unfold scanPages at h
    split at h
    · exact absurd h (by simp)
    · rename_i repos1 hitems
      obtain ⟨new1, e1, k1, m1⟩ := scanItems_sound key page acc repos1 hitems
      have m1p : ∀ r ∈ new1, ∃ pg ∈ page :: rest, ∃ item ∈ pg, item.lookup "repo" = some (.S r) :=
        fun r hr => ⟨page, List.mem_cons_self _ _, m1 r hr⟩
      split at h
      · obtain ⟨new2, e2, k2, m2⟩ := ih _ _ _ h
        refine ⟨new1 ++ new2, by simp [e2, e1], ?_, ?_⟩
        · simp only [List.mem_append, not_or]; exact ⟨k1, k2⟩
        · intro r hr
          rcases List.mem_append.mp hr with hr | hr
          · exact m1p r hr
          · obtain ⟨pg, hpg, hi⟩ := m2 r hr
            exact ⟨pg, List.mem_cons_of_mem _ hpg, hi⟩
      · simp only [Option.some.injEq] at h
        exact ⟨new1, by simp [← h, e1], k1, m1p⟩

theorem scanPages_total (key : String) (maxpages : Nat) :
    ∀ (pages : List (List Item)) (pageNum : Nat) (acc : List String),
      (∀ page ∈ pages, ∀ item ∈ page, ∀ n, item.lookup "repo" ≠ some (.N n)) →
      ∃ res, scanPages key maxpages pages pageNum acc = some res := by
  intro pages
  induction pages with
  | nil => intro pageNum acc _; exact ⟨(acc, true), rfl⟩
  | cons page rest ih =>
    intro pageNum acc hwf
    obtain ⟨out, hout⟩ := scanItems_total key page acc (hwf page (List.mem_cons_self _ _))
    unfold scanPages
    rw [hout]
    simp only
    split
    · exact ih _ _ (fun pg hpg => hwf pg (List.mem_cons_of_mem _ hpg))
    · exact ⟨_, rfl⟩

theorem getRepos_sound (conf : config) (w : World) (repos : List String) (err : Option String)
    (h : getRepos conf w = some (repos, err)) :
    conf.DynamoDBTriggerKey ∉ repos ∧
      ∀ r ∈ repos, ∃ page ∈ w.scan.pages, ∃ item ∈ page, item.lookup "repo" = some (.S r) := by
  unfold getRepos at h
  split at h
  · simp only [Option.some.injEq, Prod.mk.injEq] at h
    simp [← h.1]
  · split at h
    · exact absurd h (by simp)
    · rename_i rs hs
      obtain ⟨new, e, k, m⟩ := scanPages_sound _ _ _ _ _ _ hs
      simp only [Option.some.injEq, Prod.mk.injEq] at h
      simp only [List.nil_append] at e
      rw [← h.1, e]
      exact ⟨k, m⟩
    · rename_i rs hs
      obtain ⟨new, e, k, m⟩ := scanPages_sound _ _ _ _ _ _ hs
      simp only [Option.some.injEq, Prod.mk.injEq] at h
      simp only [List.nil_append] at e
      rw [← h.1, e]
      exact ⟨k, m⟩

/-- C2: whatever the scanned pages hold, a list returned by `getRepos` never holds the
configured trigger key and each of its entries is the `repo` attribute of a scanned item;
and `getRepos` does return on every table whose `repo` attributes are strings (the partition
key of the table). -/
theorem getRepos_excludes_trigger_key (conf : config) (w : World) :
    (∀ repos err, getRepos conf w = some (repos, err) →
      conf.DynamoDBTriggerKey ∉ repos ∧
      ∀ r ∈ repos, ∃ page ∈ w.scan.pages, ∃ item ∈ page, item.lookup "repo" = some (.S r)) ∧
    ((∀ page ∈ w.scan.pages, ∀ item ∈ page, repoIsString item = true) →
      ∃ repos err, getRepos conf w = some (repos, err)) := by
  refine ⟨fun repos err h => getRepos_sound conf w repos err h, ?_⟩
  intro hkey
  have hsome : ∃ res, getRepos conf w = some res := by
    unfold getRepos
    split
    · exact ⟨_, rfl⟩
    · have hkey2 : ∀ page ∈ w.scan.pages, ∀ item ∈ page, ∀ n,
          item.lookup "repo" ≠ some (.N n) := by
        intro page hp item hi n hl
        have := hkey page hp item hi
        simp [repoIsString, hl] at this
      obtain ⟨res, hres⟩ := scanPages_total conf.DynamoDBTriggerKey 50 w.scan.pages 0 [] hkey2
      rw [hres]
      obtain ⟨rs, b⟩ := res
      cases b <;> exact ⟨_, rfl⟩
  obtain ⟨⟨repos, err⟩, hres⟩ := hsome
  exact ⟨repos, err, hres⟩

/-! ## ahoy: one reconciliation pass -/

theorem foldl_fetchStep (conf : config) (w : World) :
    ∀ (D : List String) (st : RunState),
      (D.foldl (fetchStep conf w) st).localRepos = st.localRepos ++ D ∧
      (D.foldl (fetchStep conf w) st).trace =
        st.trace ++ D.map (fun r => Invocation.fetch r (fetchCmd conf w r)) := by
  intro D
  induction D with
  | nil => intro st; simp
  | cons r rest ih =>
    intro st
    obtain ⟨h1, h2⟩ := ih (fetchStep conf w st r)
    simp only [List.foldl_cons, h1, h2]
    simp [fetchStep]

theorem isMissing_fold (lrepo : String) :
    ∀ (repos : List String) (b : Bool),
      repos.foldl (fun missing r => if r == lrepo then false else missing) b =
        (b && decide (lrepo ∉ repos)) := by
  intro repos
  induction repos with
  | nil => intro b; simp
  | cons r rest ih =>
    intro b
    simp only [List.foldl_cons, ih]
    by_cases h : r = lrepo
    · subst h; simp
    · have h2 : ¬ lrepo = r := fun e => h e.symm
      simp [h, h2]

theorem isMissing_eq (repos : List String) (lrepo : String) :
    isMissing repos lrepo = decide (lrepo ∉ repos) := by
  unfold isMissing
  rw [isMissing_fold]
  simp

theorem collectDeletes_eq (repos : List String) :
    ∀ (locals acc : List String),
      collectDeletes repos locals acc = acc ++ locals.filter (fun l => decide (l ∉ repos)) := by
  intro locals
  induction locals with
  | nil => intro acc; simp [collectDeletes]
  | cons l rest ih =>
    intro acc
    unfold collectDeletes
    rw [isMissing_eq]
    by_cases h : l ∈ repos
    · simp [h, ih]
    · simp [h, ih]

theorem filter_not_mem_self (D : List String) : D.filter (fun l => decide (l ∉ D)) = [] := by
  rw [List.filter_eq_nil_iff]
  intro a ha
  simp [ha]

theorem string_length_pos_iff (s : String) : 0 < s.length ↔ s ≠ "" := by
  obtain ⟨l⟩ := s
  cases l <;> simp [String.length, String.ext_iff]

theorem removeLoop_resolved (conf : config) (w : World)
    (hroot : findGopath conf.GoGetEnvs ≠ "") :
    ∀ (dels : List String) (st : RunState),
      (removeLoop conf w dels st).2 = none ∧
      (removeLoop conf w dels st).1.localRepos = st.localRepos ∧
      (removeLoop conf w dels st).1.trace =
        st.trace ++ dels.map (fun r => Invocation.remove r (removeCmd conf w r)) := by
  have hpos : (findGopath conf.GoGetEnvs).length > 0 := (string_length_pos_iff _).mpr hroot
  intro dels
  induction dels with
  | nil => intro st; simp [removeLoop]
  | cons r rest ih =>
    intro st
    unfold removeLoop
    simp only [hpos, if_true]
    obtain ⟨h1, h2, h3⟩ := ih
      { st with
        trace := st.trace ++ [Invocation.remove r (removeCmd conf w r)]
        stdout := st.stdout ++
          (["attempting to perform  'rm -rf' for local source of '$GOPATH/" ++ ("src/" ++ r) ++ "'\n",
            "attempting to perform GOPATH expansion and cmd injection\n"] ++ gopathLines conf.GoGetEnvs) ++
          ["Got full path embedded in cmd of '" ++ findGopath conf.GoGetEnvs ++ "/" ++ ("src/" ++ r) ++ "'\n"] ++
          reportOutput (w.run st.trace.length (removeCmd conf w r)) }
    refine ⟨h1, h2, ?_⟩
    rw [h3]
    simp

theorem removeLoop_unresolved (conf : config) (w : World)
    (hroot : findGopath conf.GoGetEnvs = "") (r : String) (rest : List String) (st : RunState) :
    (removeLoop conf w (r :: rest) st).2 = some gopathError ∧
    (removeLoop conf w (r :: rest) st).1.localRepos = st.localRepos ∧
    (removeLoop conf w (r :: rest) st).1.trace = st.trace := by
  have hpos : ¬ (findGopath conf.GoGetEnvs).length > 0 := by
    rw [hroot]; decide
  unfold removeLoop
  simp only [hpos, if_false, and_self]

theorem fetchedRepos_append (a b : List Invocation) :
    fetchedRepos (a ++ b) = fetchedRepos a ++ fetchedRepos b := by
  induction a with
  | nil => rfl
  | cons x rest ih => cases x <;> simp [fetchedRepos, ih]

theorem removedRepos_append (a b : List Invocation) :
    removedRepos (a ++ b) = removedRepos a ++ removedRepos b := by
  induction a with
  | nil => rfl
  | cons x rest ih => cases x <;> simp [removedRepos, ih]

theorem fetchedRepos_fetches (f : String → Cmd) (D : List String) :
    fetchedRepos (D.map (fun r => Invocation.fetch r (f r))) = D := by
  induction D with
  | nil => rfl
  | cons x rest ih => simp [fetchedRepos, ih]

theorem removedRepos_fetches (f : String → Cmd) (D : List String) :
    removedRepos (D.map (fun r => Invocation.fetch r (f r))) = [] := by
  induction D with
  | nil => rfl
  | cons x rest ih => simp [removedRepos, ih]

theorem fetchedRepos_removes (f : String → Cmd) (D : List String) :
    fetchedRepos (D.map (fun r => Invocation.remove r (f r))) = [] := by
  induction D with
  | nil => rfl
  | cons x rest ih => simp [fetchedRepos, ih]

theorem removedRepos_removes (f : String → Cmd) (D : List String) :
    removedRepos (D.map (fun r => Invocation.remove r (f r))) = D := by
  induction D with
  | nil => rfl
  | cons x rest ih => simp [removedRepos, ih]

/-- The three shapes of a pass whose listing succeeded. -/
theorem update_of_listing (conf : config) (w : World) (L D : List String)
    (hlist : getRepos conf w = some (D, none)) :
    ∃ res, update conf w L = some res ∧
      res.localRepos = L ++ D ∧
      res.reposToDelete = L.filter (fun l => decide (l ∉ D)) ∧
      ((findGopath conf.GoGetEnvs ≠ "" ∧ res.err = none ∧
          res.trace = D.map (fun r => Invocation.fetch r (fetchCmd conf w r)) ++
            (L.filter (fun l => decide (l ∉ D))).map (fun r => Invocation.remove r (removeCmd conf w r)) ++
            [Invocation.notify notifyCmd]) ∨
       (findGopath conf.GoGetEnvs = "" ∧ L.filter (fun l => decide (l ∉ D)) = [] ∧ res.err = none ∧
          res.trace = D.map (fun r => Invocation.fetch r (fetchCmd conf w r)) ++
            [Invocation.notify notifyCmd]) ∨
       (findGopath conf.GoGetEnvs = "" ∧ L.filter (fun l => decide (l ∉ D)) ≠ [] ∧
          res.err = some gopathError ∧
          res.trace = D.map (fun r => Invocation.fetch r (fetchCmd conf w r)))) := by
  obtain ⟨hl, ht⟩ := foldl_fetchStep conf w D
    ⟨L, [], ["done getting repos, 'go get'ting them and ignoring errors\n"]⟩
  simp only [List.nil_append] at hl ht
  have hdel : collectDeletes D (L ++ D) [] = L.filter (fun l => decide (l ∉ D)) := by
    rw [collectDeletes_eq, List.filter_append, filter_not_mem_self]
    simp
  unfold update
  rw [hlist]
  dsimp only
  rw [hl, hdel, ht]
  by_cases hroot : findGopath conf.GoGetEnvs = ""
  · cases hd : L.filter (fun l => decide (l ∉ D)) with
    | nil =>
      exact ⟨_, rfl, rfl, rfl, Or.inr (Or.inl ⟨hroot, rfl, rfl, rfl⟩)⟩
    | cons r rest =>
      generalize hrl : removeLoop conf w _ _ = p
      obtain ⟨st3, e⟩ := p
      obtain ⟨h1, h2, h3⟩ := removeLoop_unresolved conf w hroot r rest _
      rw [hrl] at h1 h2 h3
      simp only at h1 h2 h3
      subst h1
      exact ⟨_, rfl, h2, rfl, Or.inr (Or.inr ⟨hroot, by simp, rfl, h3⟩)⟩
  · generalize hrl : removeLoop conf w _ _ = p
    obtain ⟨st3, e⟩ := p
    obtain ⟨h1, h2, h3⟩ := removeLoop_resolved conf w hroot (L.filter (fun l => decide (l ∉ D))) _
    rw [hrl] at h1 h2 h3
    simp only at h1 h2 h3
    subst h1
    exact ⟨_, rfl, h2, rfl, Or.inl ⟨hroot, rfl, by simp only [h3]⟩⟩

theorem foldl_append_singleton (envs init : List String) :
    envs.foldl (fun env e => env ++ [e]) init = init ++ envs := by
  induction envs generalizing init with
  | nil => simp
  | cons e rest ih => simp [ih]

/-- The command of the fetch loop, spelled out: `go get -u -d repo` (or the configured
binary in place of `go`) under the process environment followed by the configured overrides. -/
theorem fetchCmd_eq (conf : config) (w : World) (repo : String) :
    fetchCmd conf w repo =
      { Path := if conf.GoBinaryPath = "" then "go" else conf.GoBinaryPath
        Args := [if conf.GoBinaryPath = "" then "go" else conf.GoBinaryPath, "get", "-u", "-d", repo]
        Env := w.osEnviron ++ conf.GoGetEnvs } := by
  unfold fetchCmd
  rw [foldl_append_singleton]
  by_cases h : conf.GoBinaryPath = "" <;> simp [h]

theorem filter_isFetch_fetches (f : String → Cmd) (D : List String) :
    (D.map (fun r => Invocation.fetch r (f r))).filter isFetch =
      D.map (fun r => Invocation.fetch r (f r)) := by
  induction D with
  | nil => rfl
  | cons x rest ih => simp [isFetch, ih]

theorem filter_isFetch_removes (f : String → Cmd) (D : List String) :
    (D.map (fun r => Invocation.remove r (f r))).filter isFetch = [] := by
  induction D with
  | nil => rfl
  | cons x rest ih => simp [isFetch, ih]

/-- C1: after a successful listing `D`, one call of `update` started with the local list `L`
starts a fetch for exactly the entries of `D`, each once and in listing order: the fetch
invocations of the pass are, in order, one `go get -u -d r` (with the configured binary in
place of `go` when one is set) for each entry `r` of `D`, run under the process environment
followed by the configured overrides; and its removal list is exactly the entries of `L`
that are not in `D`. -/
theorem update_fetches_listing_removes_difference (conf : config) (w : World)
    (L D : List String) (hlist : getRepos conf w = some (D, none)) :
    ∃ res, update conf w L = some res ∧
      fetchedRepos res.trace = D ∧
      res.trace.filter isFetch =
        D.map (fun r => Invocation.fetch r
          { Path := if conf.GoBinaryPath = "" then "go" else conf.GoBinaryPath
            Args := [if conf.GoBinaryPath = "" then "go" else conf.GoBinaryPath,
              "get", "-u", "-d", r]
            Env := w.osEnviron ++ conf.GoGetEnvs }) ∧
      res.reposToDelete = L.filter (fun l => decide (l ∉ D)) := by
  obtain ⟨res, hres, _, hdel, hcase⟩ := update_of_listing conf w L D hlist
  have hcmd : (fun r => Invocation.fetch r (fetchCmd conf w r)) =
      (fun r => Invocation.fetch r
        { Path := if conf.GoBinaryPath = "" then "go" else conf.GoBinaryPath
          Args := [if conf.GoBinaryPath = "" then "go" else conf.GoBinaryPath,
            "get", "-u", "-d", r]
          Env := w.osEnviron ++ conf.GoGetEnvs }) := by
    funext r
    rw [fetchCmd_eq]
  refine ⟨res, hres, ?_, ?_, hdel⟩
  · rcases hcase with ⟨_, _, ht⟩ | ⟨_, _, _, ht⟩ | ⟨_, _, _, ht⟩
    · rw [ht]
      simp [fetchedRepos_append, fetchedRepos_fetches, fetchedRepos_removes, fetchedRepos]
    · rw [ht]
      simp [fetchedRepos_append, fetchedRepos_fetches, fetchedRepos]
    · rw [ht]
      exact fetchedRepos_fetches _ _
  · rw [← hcmd]
    rcases hcase with ⟨_, _, ht⟩ | ⟨_, _, _, ht⟩ | ⟨_, _, _, ht⟩
    · rw [ht, List.filter_append, List.filter_append, filter_isFetch_fetches,
        filter_isFetch_removes]
      simp [isFetch]
    · rw [ht, List.filter_append, filter_isFetch_fetches]
      simp [isFetch]
    · rw [ht, filter_isFetch_fetches]

/-- Scenarios B and C of C1: listing `a, b` over a local list `a` runs `go get -u -d a` and
`go get -u -d b` and removes nothing; listing `a` over a local list `a, b` runs
`go get -u -d a` and puts `b` on the removal list. -/
theorem update_fetches_listing_removes_difference_witness :
    (getRepos exampleConf (exampleWorld ["a", "b"]) = some (["a", "b"], none) ∧
      ∃ res, update exampleConf (exampleWorld ["a", "b"]) ["a"] = some res ∧
        fetchedRepos res.trace = ["a", "b"] ∧
        res.trace.filter isFetch =
          [Invocation.fetch "a"
             ⟨"go", ["go", "get", "-u", "-d", "a"], ["HOME=/root", "GO111MODULE=off", "GOPATH=/go"]⟩,
           Invocation.fetch "b"
             ⟨"go", ["go", "get", "-u", "-d", "b"], ["HOME=/root", "GO111MODULE=off", "GOPATH=/go"]⟩] ∧
        res.reposToDelete = []) ∧
    (getRepos exampleConf (exampleWorld ["a"]) = some (["a"], none) ∧
      ∃ res, update exampleConf (exampleWorld ["a"]) ["a", "b"] = some res ∧
        fetchedRepos res.trace = ["a"] ∧
        res.trace.filter isFetch =
          [Invocation.fetch "a"
             ⟨"go", ["go", "get", "-u", "-d", "a"], ["HOME=/root", "GO111MODULE=off", "GOPATH=/go"]⟩] ∧
        res.reposToDelete = ["b"]) :=
  ⟨⟨by decide,
      update_fetches_listing_removes_difference exampleConf (exampleWorld ["a", "b"])
        ["a"] ["a", "b"] (by decide)⟩,
    ⟨by decide,
      update_fetches_listing_removes_difference exampleConf (exampleWorld ["a"])
        ["a", "b"] ["a"] (by decide)⟩⟩

/-- Witness of C2: a table with the trigger record and the rows `a` and `b` lists `a, b`. -/
theorem getRepos_excludes_trigger_key_witness :
    getRepos exampleConf (exampleWorld ["a", "b"]) = some (["a", "b"], none) ∧
    (exampleConf.DynamoDBTriggerKey ∉ ["a", "b"] ∧
      ∀ r ∈ ["a", "b"], ∃ page ∈ (exampleWorld ["a", "b"]).scan.pages, ∃ item ∈ page,
        item.lookup "repo" = some (.S r)) ∧
    ∃ repos err, getRepos exampleConf (exampleWorld ["a", "b"]) = some (repos, err) :=
  ⟨by decide,
    (getRepos_excludes_trigger_key exampleConf (exampleWorld ["a", "b"])).1 ["a", "b"] none
      (by decide),
    (getRepos_excludes_trigger_key exampleConf (exampleWorld ["a", "b"])).2 (by decide)⟩

/-- C7: whatever the child processes return, `update` returns `nil` whenever the listing
succeeded and the mirror root is resolved; and when it returns an error, either the listing
failed or the mirror root was unresolved with a removal pending. -/
theorem update_error_only_listing_or_root (conf : config) (w : World) (L : List String) :
    (∀ D, getRepos conf w = some (D, none) → findGopath conf.GoGetEnvs ≠ "" →
      ∃ res, update conf w L = some res ∧ res.err = none) ∧
    (∀ res, update conf w L = some res → res.err ≠ none →
      (∃ repos e, getRepos conf w = some (repos, some e)) ∨
      (findGopath conf.GoGetEnvs = "" ∧ res.reposToDelete ≠ [])) := by
  constructor
  · intro D hlist hroot
    obtain ⟨res, hres, _, _, hcase⟩ := update_of_listing conf w L D hlist
    refine ⟨res, hres, ?_⟩
    rcases hcase with ⟨_, he, _⟩ | ⟨h, _⟩ | ⟨h, _⟩
    · exact he
    · exact absurd h hroot
    · exact absurd h hroot
  · intro res hres herr
    cases hg : getRepos conf w with
    | none => simp [update, hg] at hres
    | some p =>
      obtain ⟨repos, e⟩ := p
      cases e with
      | some e => exact Or.inl ⟨repos, e, rfl⟩
      | none =>
        obtain ⟨res2, hres2, _, hdel, hcase⟩ := update_of_listing conf w L repos hg
        rw [hres] at hres2
        cases hres2
        rcases hcase with ⟨_, he, _⟩ | ⟨_, _, he, _⟩ | ⟨h, hne, _⟩
        · exact absurd he herr
        · exact absurd he herr
        · exact Or.inr ⟨h, by rw [hdel]; exact hne⟩

/-- Witness of C7: every child process fails, the listing and the root are fine, and the
pass over a local list with a stale entry returns `nil`. -/
theorem update_error_only_listing_or_root_witness :
    getRepos exampleConf (exampleWorld ["a"]) = some (["a"], none) ∧
    findGopath exampleConf.GoGetEnvs ≠ "" ∧
    ∃ res, update exampleConf (exampleWorld ["a"]) ["a", "b"] = some res ∧ res.err = none :=
  ⟨by decide, by decide,
    (update_error_only_listing_or_root exampleConf (exampleWorld ["a"]) ["a", "b"]).1
      ["a"] (by decide) (by decide)⟩

/-- C8: when the environment overrides give no non-empty `GOPATH`, a pass after a successful
listing starts no remove invocation, and returns the missing-root error when its removal list
is not empty. -/
theorem update_unresolved_root_no_removes (conf : config) (w : World) (L D : List String)
    (hlist : getRepos conf w = some (D, none)) (hroot : findGopath conf.GoGetEnvs = "") :
    ∃ res, update conf w L = some res ∧
      removedRepos res.trace = [] ∧
      (res.reposToDelete ≠ [] → res.err = some gopathError) := by
  obtain ⟨res, hres, _, hdel, hcase⟩ := update_of_listing conf w L D hlist
  refine ⟨res, hres, ?_⟩
  rcases hcase with ⟨h, _⟩ | ⟨_, hnil, _, ht⟩ | ⟨_, _, he, ht⟩
  · exact absurd hroot h
  · refine ⟨?_, fun hne => absurd (hdel.trans hnil) hne⟩
    rw [ht]
    simp [removedRepos_append, removedRepos_fetches, removedRepos]
  · refine ⟨?_, fun _ => he⟩
    rw [ht]
    exact removedRepos_fetches _ _

/-- Witness of C8: no `GOPATH` entry, a stale local entry `b`. -/
theorem update_unresolved_root_no_removes_witness :
    getRepos exampleConfNoRoot (exampleWorld ["a"]) = some (["a"], none) ∧
    findGopath exampleConfNoRoot.GoGetEnvs = "" ∧
    ∃ res, update exampleConfNoRoot (exampleWorld ["a"]) ["a", "b"] = some res ∧
      removedRepos res.trace = [] ∧
      (res.reposToDelete ≠ [] → res.err = some gopathError) :=
  ⟨by decide, by decide,
    update_unresolved_root_no_removes exampleConfNoRoot (exampleWorld ["a"]) ["a", "b"] ["a"]
      (by decide) (by decide)⟩

/-- C9: with the mirror root resolved, a second pass over the same listing `D`, started from
the local list the first pass left behind, has the same fetch list and the same removal list
as the first pass. -/
theorem update_twice_same_partitions (conf : config) (w1 w2 : World) (L D : List String)
    (hlist1 : getRepos conf w1 = some (D, none)) (hlist2 : getRepos conf w2 = some (D, none))
    (hroot : findGopath conf.GoGetEnvs ≠ "") :
    ∃ r1 r2, update conf w1 L = some r1 ∧ update conf w2 r1.localRepos = some r2 ∧
      r1.localRepos = L ++ D ∧
      fetchedRepos r2.trace = fetchedRepos r1.trace ∧
      r2.reposToDelete = r1.reposToDelete ∧
      removedRepos r2.trace = removedRepos r1.trace := by
  obtain ⟨r1, hr1, hloc1, hdel1, hcase1⟩ := update_of_listing conf w1 L D hlist1
  obtain ⟨r2, hr2, _, hdel2, hcase2⟩ := update_of_listing conf w2 r1.localRepos D hlist2
  have hsame : (L ++ D).filter (fun l => decide (l ∉ D)) = L.filter (fun l => decide (l ∉ D)) := by
    rw [List.filter_append, filter_not_mem_self, List.append_nil]
  rw [hloc1, hsame] at hdel2 hcase2
  refine ⟨r1, r2, hr1, hr2, hloc1, ?_, by rw [hdel1, hdel2], ?_⟩
  · rcases hcase1 with ⟨_, _, ht1⟩ | ⟨h, _⟩ | ⟨h, _⟩
    · rcases hcase2 with ⟨_, _, ht2⟩ | ⟨h, _⟩ | ⟨h, _⟩
      · rw [ht1, ht2]
        simp [fetchedRepos_append, fetchedRepos_fetches, fetchedRepos_removes, fetchedRepos]
      · exact absurd h hroot
      · exact absurd h hroot
    · exact absurd h hroot
    · exact absurd h hroot
  · rcases hcase1 with ⟨_, _, ht1⟩ | ⟨h, _⟩ | ⟨h, _⟩
    · rcases hcase2 with ⟨_, _, ht2⟩ | ⟨h, _⟩ | ⟨h, _⟩
      · rw [ht1, ht2]
        simp [removedRepos_append, removedRepos_fetches, removedRepos_removes, removedRepos]
      · exact absurd h hroot
      · exact absurd h hroot
    · exact absurd h hroot
    · exact absurd h hroot

/-- Witness of C9: two passes over the listing `a`, started from the local list `a, b`. -/
theorem update_twice_same_partitions_witness :
    getRepos exampleConf (exampleWorld ["a"]) = some (["a"], none) ∧
    findGopath exampleConf.GoGetEnvs ≠ "" ∧
    ∃ r1 r2, update exampleConf (exampleWorld ["a"]) ["a", "b"] = some r1 ∧
      update exampleConf (exampleWorld ["a"]) r1.localRepos = some r2 ∧
      r1.localRepos = ["a", "b"] ++ ["a"] ∧
      fetchedRepos r2.trace = fetchedRepos r1.trace ∧
      r2.reposToDelete = r1.reposToDelete ∧
      removedRepos r2.trace = removedRepos r1.trace :=
  ⟨by decide, by decide,
    update_twice_same_partitions exampleConf (exampleWorld ["a"]) (exampleWorld ["a"])
      ["a", "b"] ["a"] (by decide) (by decide) (by decide)⟩

end Ahoy

/-! ## chook: the trigger counter -/

namespace Chook

theorem wrapInt_range (x : Int) : minInt ≤ wrapInt x ∧ wrapInt x ≤ maxInt := by
  unfold wrapInt minInt maxInt
  norm_num
  omega

theorem wrapInt_succ (c : Int) (hlo : minInt ≤ c) (hhi : c < maxInt) : wrapInt (c + 1) = c + 1 := by
  unfold wrapInt
  unfold minInt at hlo
  unfold maxInt at hhi
  norm_num at hlo hhi ⊢
  omega

theorem unmarshalInt_ok_range (v : AttributeValue) (c : Int) (h : unmarshalInt v = .ok c) :
    minInt ≤ c ∧ c ≤ maxInt := by
  cases v with
  | S s => simp [unmarshalInt] at h
  | N n =>
    by_cases hr : minInt ≤ n ∧ n ≤ maxInt
    · simp only [unmarshalInt, hr, and_self, if_true, Except.ok.injEq] at h
      rw [← h]; exact hr
    · simp [unmarshalInt, hr] at h

theorem unmarshalInt_wrapInt (x : Int) : unmarshalInt (.N (wrapInt x)) = .ok (wrapInt x) := by
  simp [unmarshalInt, wrapInt_range x]

/-- One successful call of `trigger.getCounter`: the count was readable, and the count
afterwards is the same (no `count` attribute to bump) or the wrapped successor. -/
theorem getCounter_step (conf : config) (t : trigger) (d : Dynamo)
    (hok : (t.getCounter conf d).2.2 = none) :
    ∃ c, storedCount conf.DynamoDBtriggerKey d.table = .ok c ∧ minInt ≤ c ∧ c ≤ maxInt ∧
      (storedCount conf.DynamoDBtriggerKey (t.getCounter conf d).2.1.table = .ok c ∨
       storedCount conf.DynamoDBtriggerKey (t.getCounter conf d).2.1.table = .ok (wrapInt (c + 1))) := by
  cases hf1 : d.fault d.calls.length with
  | some e => simp [trigger.getCounter, NewSession, hf1] at hok
  | none =>
    cases hf2 : d.fault (d.calls.length + 1) with
    | some e => simp [trigger.getCounter, NewSession, GetItem, hf1, hf2] at hok
    | none =>
      cases hl : ((d.table conf.DynamoDBtriggerKey).getD []).lookup "count" with
      | none =>
        refine ⟨0, by simp [storedCount, hl], by decide, by decide, Or.inl ?_⟩
        simp [trigger.getCounter, NewSession, GetItem, hf1, hf2, hl, storedCount]
      | some val =>
        cases hu : unmarshalInt val with
        | error e => simp [trigger.getCounter, NewSession, GetItem, hf1, hf2, hl, hu] at hok
        | ok cnt =>
          obtain ⟨hlo, hhi⟩ := unmarshalInt_ok_range val cnt hu
          refine ⟨cnt, by simp [storedCount, hl, hu], hlo, hhi, Or.inr ?_⟩
          cases hf3 : d.fault (d.calls.length + 2) with
          | some e =>
            simp [trigger.getCounter, trigger.writeDynamo, NewSession, GetItem, hf1, hf2, hl, hu, hf3]
              at hok
          | none =>
            cases hf4 : d.fault (d.calls.length + 3) with
            | some e =>
              simp [trigger.getCounter, trigger.writeDynamo, trigger.dynamoFormat, NewSession, GetItem,
                PutItem, hf1, hf2, hl, hu, hf3, hf4] at hok
            | none =>
              simp [trigger.getCounter, trigger.writeDynamo, trigger.dynamoFormat, NewSession, GetItem,
                PutItem, hf1, hf2, hl, hu, hf3, hf4, storedCount, List.lookup, unmarshalInt_wrapInt]

/-- C10 as stated fails at the largest `int`: a successful call on a stored count of
`2^63 - 1` writes `-2^63`, so the stored count decreases. -/
theorem getCounter_wraps_at_maxInt :
    (trigger.getCounter exampleConf ⟨"", 0⟩ (registryWithCount maxInt)).2.2 = none ∧
    storedCount exampleConf.DynamoDBtriggerKey (registryWithCount maxInt).table = .ok (2 ^ 63 - 1) ∧
    storedCount exampleConf.DynamoDBtriggerKey
      (trigger.getCounter exampleConf ⟨"", 0⟩ (registryWithCount maxInt)).2.1.table = .ok (-(2 ^ 63)) ∧
    ¬ ((2 : Int) ^ 63 - 1 ≤ -(2 ^ 63)) := by
  decide

/-- C10 (amended): in a sequence of `trigger.getCounter` calls with no other writer, a
successful call that finds a stored count below `2^63 - 1` (an absent record is read as 0)
leaves a stored count that is greater than or equal to it. -/
theorem getCounter_monotone_below_maxInt (conf : config) (d : Dynamo) (k : Nat) (c : Int)
    (hread : storedCount conf.DynamoDBtriggerKey (bumped conf k d).table = .ok c)
    (hmax : c < maxInt)
    (hok : (trigger.getCounter conf ⟨"", 0⟩ (bumped conf k d)).2.2 = none) :
    ∃ c', storedCount conf.DynamoDBtriggerKey (bumped conf (k + 1) d).table = .ok c' ∧ c ≤ c' := by
  have hnext : bumped conf (k + 1) d =
      (trigger.getCounter conf ⟨"", 0⟩ (bumped conf k d)).2.1 := by
    unfold bumped
    rw [Function.iterate_succ_apply']
  obtain ⟨c0, h0, hlo, _, hcase⟩ := getCounter_step conf ⟨"", 0⟩ (bumped conf k d) hok
  rw [hread] at h0
  cases h0
  rw [hnext]
  rcases hcase with h | h
  · exact ⟨c, h, le_refl c⟩
  · refine ⟨wrapInt (c + 1), h, ?_⟩
    rw [wrapInt_succ c hlo hmax]
    omega

/-- Witness of C10 (amended): the second of two calls on a stored count of 3. -/
theorem getCounter_monotone_below_maxInt_witness :
    storedCount exampleConf.DynamoDBtriggerKey (bumped exampleConf 1 (registryWithCount 3)).table
      = .ok 4 ∧
    (4 : Int) < maxInt ∧
    (trigger.getCounter exampleConf ⟨"", 0⟩ (bumped exampleConf 1 (registryWithCount 3))).2.2 = none ∧
    ∃ c', storedCount exampleConf.DynamoDBtriggerKey
      (bumped exampleConf (1 + 1) (registryWithCount 3)).table = .ok c' ∧ 4 ≤ c' :=
  ⟨by decide, by decide, by decide,
    getCounter_monotone_below_maxInt exampleConf (registryWithCount 3) 1 4
      (by decide) (by decide) (by decide)⟩

/-! ## chook: the write path -/

/-- C3 at Scenario A (the code misses it): a create for `https://host/org/a` on an empty
table, all requests succeeding, answers 200 and leaves the repo row, but sends no `PutItem`
for the trigger record: the record stays absent and the count still reads 0, not 1. -/
theorem create_on_empty_registry_leaves_count_zero :
    (handlerCreateDelete exampleConf (exampleRequest "https://host/org/a") false emptyRegistry).2
      = httpOK ∧
    ((handlerCreateDelete exampleConf (exampleRequest "https://host/org/a") false emptyRegistry).1.table
      "host/org/a").isSome = true ∧
    (handlerCreateDelete exampleConf (exampleRequest "https://host/org/a") false emptyRegistry).1.table
      "00000trigger" = none ∧
    storedCount "00000trigger" emptyRegistry.table = .ok 0 ∧
    storedCount "00000trigger"
      (handlerCreateDelete exampleConf (exampleRequest "https://host/org/a") false emptyRegistry).1.table
      = .ok 0 ∧
    (handlerCreateDelete exampleConf (exampleRequest "https://host/org/a") false emptyRegistry).1.calls
      = [Call.NewSession,
         Call.PutItem [("repo", .S "host/org/a"), ("lastCommitId", .S "c0ffee"),
           ("lastCommitMessage", .S "first commit"), ("lastCommitUser", .S "dev@host")],
         Call.NewSession, Call.GetItem "00000trigger"] := by
  decide

/-- C5 at a table without the repo (the code misses it): a delete for `https://host/org/x` on a
table that holds only the trigger record with count 3, all requests succeeding, answers 200,
sends the `DeleteItem`, and bumps the count to 4. -/
theorem delete_of_absent_repo_succeeds_and_bumps :
    (registryWithCount 3).table "host/org/x" = none ∧
    (handlerCreateDelete exampleConf (exampleRequest "https://host/org/x") true (registryWithCount 3)).2
      = httpOK ∧
    (handlerCreateDelete exampleConf (exampleRequest "https://host/org/x") true (registryWithCount 3)).1.calls
      = [Call.NewSession, Call.NewSession, Call.GetItem "host/org/x", Call.DeleteItem "host/org/x",
         Call.NewSession, Call.GetItem "00000trigger", Call.NewSession,
         Call.PutItem [("repo", .S "00000trigger"), ("count", .N 4)]] ∧
    storedCount "00000trigger" (registryWithCount 3).table = .ok 3 ∧
    storedCount "00000trigger"
      (handlerCreateDelete exampleConf (exampleRequest "https://host/org/x") true (registryWithCount 3)).1.table
      = .ok 4 := by
  decide

theorem setRepo_ok_url_nonempty (g hook : githubWebhook) (h : g.setRepo = (hook, none)) :
    g.Repository.SVNURL.length > 0 := by
  cases hc : cut "//".data g.Repository.SVNURL.data with
  | none =>
    rw [setRepo_of_cut_none g hc] at h
    simp at h
  | some p =>
    obtain ⟨a, b⟩ := p
    have := eq_append_of_cut_eq_some _ _ a b hc
    have hlen : g.Repository.SVNURL.data.length > 0 := by
      rw [this]; simp
    exact hlen

/-- The create path on a table whose trigger record already has a count `c` below the largest
`int`: when every request succeeds, a create event for another identifier answers 200, leaves
the repo row and stores `c + 1`. -/
theorem create_bumps_present_count (conf : config) (r : Request) (d : Dynamo)
    (hook : githubWebhook) (val : AttributeValue) (c : Int)
    (hpost : r.Method = "POST") (hbody : r.bodyErr = none)
    (hparse : r.hook.setRepo = (hook, none)) (hne : hook.Repo ≠ conf.DynamoDBtriggerKey)
    (hfault : ∀ n, d.fault n = none)
    (hcount : ((d.table conf.DynamoDBtriggerKey).getD []).lookup "count" = some val)
    (hval : unmarshalInt val = .ok c) (hmax : c < maxInt) :
    (handlerCreateDelete conf r false d).2 = httpOK ∧
    (handlerCreateDelete conf r false d).1.table hook.Repo = some hook.dynamoFormat ∧
    storedCount conf.DynamoDBtriggerKey (handlerCreateDelete conf r false d).1.table = .ok (c + 1) := by
  have hurl := setRepo_ok_url_nonempty r.hook hook hparse
  obtain ⟨hlo, _⟩ := unmarshalInt_ok_range val c hval
  have hne2 : ¬ conf.DynamoDBtriggerKey = hook.Repo := fun e => hne e.symm
  have hw := wrapInt_succ c hlo hmax
  have hr := unmarshalInt_wrapInt (c + 1)
  rw [hw] at hr
  simp [handlerCreateDelete, hpost, hbody, hurl, hparse, githubWebhook.writeDynamo, hne, hne2,
    NewSession, PutItem, GetItem, hfault, githubWebhook.dynamoFormat, trigger.getCounter,
    trigger.writeDynamo, trigger.dynamoFormat, List.lookup, hcount, hval, storedCount, hw, hr]

/-- C4: for an event whose parsed identifier is the configured trigger key,
`githubWebhook.writeDynamo` returns its error for every method without sending any request,
and `handlerCreateDelete` answers 500 and leaves the table and the request log as they
were: no put, no delete, no bump of the trigger record. -/
theorem trigger_key_event_rejected (conf : config) (r : Request) (del : Bool) (d : Dynamo)
    (hook : githubWebhook) (hparse : r.hook.setRepo = (hook, none))
    (hkey : hook.Repo = conf.DynamoDBtriggerKey) :
    (∀ method, hook.writeDynamo conf method d =
      (d, some "cannot delete trigger key with hook methods")) ∧
    (handlerCreateDelete conf r del d).1 = d ∧
    (r.Method = "POST" → r.bodyErr = none →
      (handlerCreateDelete conf r del d).2 =
        httpError (if del then "dynamo delete error" else "dynamo create error")) := by
  have hw : ∀ method, hook.writeDynamo conf method d =
      (d, some "cannot delete trigger key with hook methods") := by
    intro method
    simp [githubWebhook.writeDynamo, hkey]
  have hurl := setRepo_ok_url_nonempty r.hook hook hparse
  refine ⟨hw, ?_, ?_⟩
  · unfold handlerCreateDelete
    split
    · split
      · rfl
      · simp only [hurl, if_true, hparse]
        cases del <;> simp [hw]
    · rfl
  · intro hpost hbody
    unfold handlerCreateDelete
    simp only [hpost, hbody, hurl, hparse]
    cases del <;> simp [hw]

/-- Witness of C4: a delete event for `https://00000trigger` on a table with the trigger
record. -/
theorem trigger_key_event_rejected_witness :
    (exampleRequest "https://00000trigger").hook.setRepo =
      ({ exampleHook "https://00000trigger" with Repo := "00000trigger" }, none) ∧
    (∀ method, githubWebhook.writeDynamo exampleConf
        { exampleHook "https://00000trigger" with Repo := "00000trigger" } method (registryWithCount 3) =
      (registryWithCount 3, some "cannot delete trigger key with hook methods")) ∧
    (handlerCreateDelete exampleConf (exampleRequest "https://00000trigger") true
      (registryWithCount 3)).1 = registryWithCount 3 ∧
    ((exampleRequest "https://00000trigger").Method = "POST" →
      (exampleRequest "https://00000trigger").bodyErr = none →
      (handlerCreateDelete exampleConf (exampleRequest "https://00000trigger") true
        (registryWithCount 3)).2 = httpError (if true then "dynamo delete error" else "dynamo create error")) :=
  ⟨by decide,
    trigger_key_event_rejected exampleConf (exampleRequest "https://00000trigger") true
      (registryWithCount 3) { exampleHook "https://00000trigger" with Repo := "00000trigger" }
      (by decide) (by decide)⟩

/-- C6 as stated fails on a URL with a second `//`: `setRepo` keeps only the text up to it,
not the whole remainder after the first `//`. -/
theorem setRepo_stops_at_second_separator :
    (exampleHook "https://host/org//a").Repository.SVNURL = "https:" ++ "//" ++ "host/org//a" ∧
    ¬ Contains ("https:" ++ "/") "//" ∧
    (exampleHook "https://host/org//a").setRepo =
      ({ exampleHook "https://host/org//a" with Repo := "host/org" }, none) ∧
    (exampleHook "https://host/org//a").setRepo.1.Repo ≠ "host/org//a" := by
  decide

/-- Witness of C6 (amended): `https://host/org/a` gives `host/org/a`. -/
theorem setRepo_spec_witness :
    (exampleHook "https://host/org/a").Repository.SVNURL = "https:" ++ "//" ++ "host/org/a" ∧
    ¬ Contains ("https:" ++ "/") "//" ∧ ¬ Contains "host/org/a" "//" ∧
    (exampleHook "https://host/org/a").setRepo =
      ({ exampleHook "https://host/org/a" with Repo := "host/org/a" }, none) :=
  ⟨by decide, by decide, by decide,
    ((setRepo_spec (exampleHook "https://host/org/a")).2.2 "https:" "host/org/a"
      (by decide) (by decide)).1 (by decide)⟩

end Chook

/-! ## ahoy: the order of a pass and the watcher loop -/

namespace Ahoy

theorem fetchedRepos_eq_nil (R : List Invocation)
    (hR : ∀ x ∈ R, ∀ r c, x ≠ Invocation.fetch r c) : fetchedRepos R = [] := by
  induction R with
  | nil => rfl
  | cons x rest ih =>
    have hrest : ∀ y ∈ rest, ∀ r c, y ≠ Invocation.fetch r c :=
      fun y hy => hR y (List.mem_cons_of_mem _ hy)
    cases x with
    | fetch r c => exact absurd rfl (hR _ (List.mem_cons_self _ _) r c)
    | remove r c => simp [fetchedRepos, ih hrest]
    | notify c => simp [fetchedRepos, ih hrest]

/-- A trace made of a block without removes followed by a block without fetches: every
fetch stands before every remove, and the whole first block stands before the first remove. -/
theorem order_of_blocks (F R : List Invocation)
    (hF : ∀ x ∈ F, ∀ r c, x ≠ Invocation.remove r c)
    (hR : ∀ x ∈ R, ∀ r c, x ≠ Invocation.fetch r c) :
    (∀ (i j : Nat) r c r2 c2, (F ++ R)[i]? = some (Invocation.remove r c) →
      (F ++ R)[j]? = some (Invocation.fetch r2 c2) → j < i) ∧
    (∀ (i : Nat) r c, (F ++ R)[i]? = some (Invocation.remove r c) →
      fetchedRepos ((F ++ R).take i) = fetchedRepos F) := by
  have hi : ∀ i r c, (F ++ R)[i]? = some (Invocation.remove r c) → F.length ≤ i := by
    intro i r c h
    by_contra hlt
    rw [List.getElem?_append_left (Nat.lt_of_not_le hlt)] at h
    exact hF _ (List.mem_iff_getElem?.mpr ⟨i, h⟩) r c rfl
  have hj : ∀ j r c, (F ++ R)[j]? = some (Invocation.fetch r c) → j < F.length := by
    intro j r c h
    by_contra hge
    rw [List.getElem?_append_right (Nat.le_of_not_lt hge)] at h
    exact hR _ (List.mem_iff_getElem?.mpr ⟨_, h⟩) r c rfl
  constructor
  · intro i j r c r2 c2 h1 h2
    exact Nat.lt_of_lt_of_le (hj j r2 c2 h2) (hi i r c h1)
  · intro i r c h
    have hle := hi i r c h
    rw [List.take_append_eq_append_take, List.take_of_length_le hle, fetchedRepos_append,
      fetchedRepos_eq_nil (R.take (i - F.length))
        (fun x hx => hR x (List.mem_of_mem_take hx)),
      List.append_nil]

theorem fetches_no_remove (f : String → Cmd) (D : List String) :
    ∀ x ∈ D.map (fun r => Invocation.fetch r (f r)), ∀ r c, x ≠ Invocation.remove r c := by
  intro x hx r c he
  obtain ⟨y, _, hy⟩ := List.mem_map.mp hx
  rw [he] at hy
  cases hy

theorem removes_no_fetch (f : String → Cmd) (D : List String) :
    ∀ x ∈ D.map (fun r => Invocation.remove r (f r)), ∀ r c, x ≠ Invocation.fetch r c := by
  intro x hx r c he
  obtain ⟨y, _, hy⟩ := List.mem_map.mp hx
  rw [he] at hy
  cases hy

/-- C12: in the child processes started by one call of `update` after a successful listing
`D`, every fetch invocation stands before every remove invocation, and the fetches started
before any remove invocation are exactly those of `D`, all of them. -/
theorem update_fetches_before_removes (conf : config) (w : World) (L D : List String)
    (hlist : getRepos conf w = some (D, none)) :
    ∃ res, update conf w L = some res ∧
      (∀ (i j : Nat) r c r2 c2, res.trace[i]? = some (Invocation.remove r c) →
        res.trace[j]? = some (Invocation.fetch r2 c2) → j < i) ∧
      (∀ (i : Nat) r c, res.trace[i]? = some (Invocation.remove r c) →
        fetchedRepos (res.trace.take i) = D) := by
  obtain ⟨res, hres, _, _, hcase⟩ := update_of_listing conf w L D hlist
  refine ⟨res, hres, ?_⟩
  have hF := fetches_no_remove (fetchCmd conf w) D
  have hD := fetchedRepos_fetches (fetchCmd conf w) D
  have key : ∀ R : List Invocation, (∀ x ∈ R, ∀ r c, x ≠ Invocation.fetch r c) →
      res.trace = D.map (fun r => Invocation.fetch r (fetchCmd conf w r)) ++ R →
      (∀ (i j : Nat) r c r2 c2, res.trace[i]? = some (Invocation.remove r c) →
        res.trace[j]? = some (Invocation.fetch r2 c2) → j < i) ∧
      (∀ (i : Nat) r c, res.trace[i]? = some (Invocation.remove r c) →
        fetchedRepos (res.trace.take i) = D) := by
    intro R hR ht
    obtain ⟨h1, h2⟩ := order_of_blocks _ R hF hR
    rw [ht]
    exact ⟨h1, fun i r c h => (h2 i r c h).trans hD⟩
  rcases hcase with ⟨_, _, ht⟩ | ⟨_, _, _, ht⟩ | ⟨_, _, _, ht⟩
  · refine key ((L.filter (fun l => decide (l ∉ D))).map
        (fun r => Invocation.remove r (removeCmd conf w r)) ++ [Invocation.notify notifyCmd]) ?_
      (by rw [ht, List.append_assoc])
    intro x hx r c he
    rcases List.mem_append.mp hx with hx | hx
    · exact removes_no_fetch _ _ x hx r c he
    · rw [List.mem_singleton.mp hx] at he
      cases he
  · refine key [Invocation.notify notifyCmd] ?_ ht
    intro x hx r c he
    rw [List.mem_singleton.mp hx] at he
    cases he
  · exact key [] (by simp) (by rw [ht, List.append_nil])

/-- Witness of C12: the listing `a, c` over the local list `a, b` starts the fetches of `a`
and `c`, then the removal of `b`. -/
theorem update_fetches_before_removes_witness :
    getRepos exampleConf (exampleWorld ["a", "c"]) = some (["a", "c"], none) ∧
    (∃ res, update exampleConf (exampleWorld ["a", "c"]) ["a", "b"] = some res ∧
      fetchedRepos res.trace = ["a", "c"] ∧ removedRepos res.trace = ["b"]) ∧
    ∃ res, update exampleConf (exampleWorld ["a", "c"]) ["a", "b"] = some res ∧
      (∀ (i j : Nat) r c r2 c2, res.trace[i]? = some (Invocation.remove r c) →
        res.trace[j]? = some (Invocation.fetch r2 c2) → j < i) ∧
      (∀ (i : Nat) r c, res.trace[i]? = some (Invocation.remove r c) →
        fetchedRepos (res.trace.take i) = ["a", "c"]) :=
  ⟨by decide, by decide,
    update_fetches_before_removes exampleConf (exampleWorld ["a", "c"]) ["a", "b"] ["a", "c"]
      (by decide)⟩

/-- C13: after a successful listing `D`, the fetch loop started with the local list `L` leaves
`localRepos = L ++ D` whatever the fetches return, so its identifiers are those of `L` and of
`D`; the removal phase does not touch it, so the entries it removes are still in it when
`update` returns. -/
theorem update_localRepos_union (conf : config) (w : World) (L D : List String)
    (hlist : getRepos conf w = some (D, none)) :
    (∀ trace out, (D.foldl (fetchStep conf w) ⟨L, trace, out⟩).localRepos = L ++ D) ∧
    ∃ res, update conf w L = some res ∧
      res.localRepos = L ++ D ∧
      (∀ x, x ∈ res.localRepos ↔ x ∈ L ∨ x ∈ D) ∧
      (∀ x ∈ res.reposToDelete, x ∈ res.localRepos) ∧
      (∀ x ∈ removedRepos res.trace, x ∈ res.localRepos) := by
  refine ⟨fun trace out => (foldl_fetchStep conf w D ⟨L, trace, out⟩).1, ?_⟩
  obtain ⟨res, hres, hloc, hdel, hcase⟩ := update_of_listing conf w L D hlist
  have hsub : ∀ x ∈ L.filter (fun l => decide (l ∉ D)), x ∈ res.localRepos := by
    intro x hx
    rw [hloc]
    exact List.mem_append_left _ (List.mem_of_mem_filter hx)
  refine ⟨res, hres, hloc, ?_, ?_, ?_⟩
  · intro x
    rw [hloc, List.mem_append]
  · rw [hdel]
    exact hsub
  · rcases hcase with ⟨_, _, ht⟩ | ⟨_, _, _, ht⟩ | ⟨_, _, _, ht⟩
    · rw [ht]
      simp only [removedRepos_append, removedRepos_fetches, removedRepos_removes, removedRepos,
        List.nil_append, List.append_nil]
      exact hsub
    · rw [ht]
      simp [removedRepos_append, removedRepos_fetches, removedRepos]
    · rw [ht, removedRepos_fetches]
      simp

/-- Witness of C13: scenario B, the listing `a, b` over the local list `a`; and the listing
`a` over the local list `a, b`, where the removed `b` stays in the local list. -/
theorem update_localRepos_union_witness :
    getRepos exampleConf (exampleWorld ["a", "b"]) = some (["a", "b"], none) ∧
    (∃ res, update exampleConf (exampleWorld ["a", "b"]) ["a"] = some res ∧
      res.localRepos = ["a"] ++ ["a", "b"] ∧
      (∀ x, x ∈ res.localRepos ↔ x ∈ ["a"] ∨ x ∈ ["a", "b"]) ∧
      (∀ x ∈ res.reposToDelete, x ∈ res.localRepos) ∧
      (∀ x ∈ removedRepos res.trace, x ∈ res.localRepos)) ∧
    getRepos exampleConf (exampleWorld ["a"]) = some (["a"], none) ∧
    (∃ res, update exampleConf (exampleWorld ["a"]) ["a", "b"] = some res ∧
      removedRepos res.trace = ["b"] ∧ res.localRepos = ["a", "b", "a"]) ∧
    (∃ res, update exampleConf (exampleWorld ["a"]) ["a", "b"] = some res ∧
      res.localRepos = ["a", "b"] ++ ["a"] ∧
      (∀ x, x ∈ res.localRepos ↔ x ∈ ["a", "b"] ∨ x ∈ ["a"]) ∧
      (∀ x ∈ res.reposToDelete, x ∈ res.localRepos) ∧
      (∀ x ∈ removedRepos res.trace, x ∈ res.localRepos)) :=
  ⟨by decide,
    (update_localRepos_union exampleConf (exampleWorld ["a", "b"]) ["a"] ["a", "b"] (by decide)).2,
    by decide, by decide,
    (update_localRepos_union exampleConf (exampleWorld ["a"]) ["a", "b"] ["a"] (by decide)).2⟩

end Ahoy
namespace Ahoy

theorem GetCounter_reads_storedCount (conf : config) (d : Dynamo)
    (hread : (Trigger.GetCounter conf ⟨"", 0⟩ d).2.2.2 = none) :
    storedCount conf.DynamoDBTriggerKey d.table =
      .ok (Trigger.GetCounter conf ⟨"", 0⟩ d).1.Count := by
  cases hf1 : d.fault d.calls.length with
  | some e => simp [Trigger.GetCounter, NewSession, hf1] at hread
  | none =>
    cases hf2 : d.fault (d.calls.length + 1) with
    | some e => simp [Trigger.GetCounter, NewSession, GetItem, hf1, hf2] at hread
    | none =>
      cases hl : ((d.table conf.DynamoDBTriggerKey).getD []).lookup "count" with
      | none => simp [Trigger.GetCounter, NewSession, GetItem, hf1, hf2, hl, storedCount]
      | some val =>
        cases hu : unmarshalInt val with
        | error e => simp [Trigger.GetCounter, NewSession, GetItem, hf1, hf2, hl, hu] at hread
        | ok cnt => simp [Trigger.GetCounter, NewSession, GetItem, hf1, hf2, hl, hu, storedCount]

theorem mainTurn_unchanged (conf : config) (d : Dynamo) (w : World) (c : Int) (L : List String)
    (hread : (Trigger.GetCounter conf ⟨"", 0⟩ d).2.2.2 = none)
    (hr : (Trigger.GetCounter conf ⟨"", 0⟩ d).1.Count = c) :
    ∃ res, mainTurn conf d w c L = some res ∧ res.updates = [] ∧ res.counter = c ∧
      res.exit = none ∧ res.localRepos = L := by
  rcases hg : Trigger.GetCounter conf ⟨"", 0⟩ d with ⟨t1, d1, out, e⟩
  rw [hg] at hread hr
  simp only at hread hr
  subst hread
  unfold mainTurn
  dsimp only
  rw [hg]
  simp [hr]

theorem mainTurn_changed (conf : config) (d : Dynamo) (w : World) (c : Int) (L : List String)
    (u : UpdateResult)
    (hread : (Trigger.GetCounter conf ⟨"", 0⟩ d).2.2.2 = none)
    (hr : (Trigger.GetCounter conf ⟨"", 0⟩ d).1.Count ≠ c)
    (hu : update conf w L = some u) :
    ∃ res, mainTurn conf d w c L = some res ∧ res.updates = [u] ∧
      res.localRepos = u.localRepos ∧
      (u.err = none → res.counter = (Trigger.GetCounter conf ⟨"", 0⟩ d).1.Count ∧ res.exit = none) ∧
      (u.err ≠ none → res.counter = c ∧ res.exit = some 1) := by
  rcases hg : Trigger.GetCounter conf ⟨"", 0⟩ d with ⟨t1, d1, out, e⟩
  rw [hg] at hread hr
  simp only at hread hr
  subst hread
  have hne : ¬ c = t1.Count := fun h => hr h.symm
  unfold mainTurn
  dsimp only
  rw [hg]
  simp only [bne_iff_ne, ne_eq, hne, not_false_eq_true, if_true, hu]
  cases he : u.err with
  | none => simp
  | some e => simp

/-- C11: one turn of the loop of `main` whose read of the trigger record succeeds with the
value `r` (the stored count, 0 for an absent record), started with the observed counter `c`:
when `r = c`, `update` is not called and the counter stays `c`; when `r ≠ c`, `update` is
called exactly once and, when it returns `nil`, the counter becomes `r`.  After a turn that
did not end the process the counter is `r`, so a next turn that reads `r` again does not
call `update`. -/
theorem mainTurn_updates_only_on_change (conf : config) (d : Dynamo) (w : World) (c r : Int)
    (L : List String)
    (hread : (Trigger.GetCounter conf ⟨"", 0⟩ d).2.2.2 = none)
    (hr : (Trigger.GetCounter conf ⟨"", 0⟩ d).1.Count = r) :
    storedCount conf.DynamoDBTriggerKey d.table = .ok r ∧
    (r = c → ∃ res, mainTurn conf d w c L = some res ∧ res.updates = [] ∧ res.counter = c ∧
      res.exit = none ∧ res.localRepos = L) ∧
    (r ≠ c → ∀ u, update conf w L = some u →
      ∃ res, mainTurn conf d w c L = some res ∧ res.updates = [u] ∧
        res.localRepos = u.localRepos ∧
        (u.err = none → res.counter = r ∧ res.exit = none) ∧
        (u.err ≠ none → res.counter = c ∧ res.exit = some 1)) ∧
    (∀ res, mainTurn conf d w c L = some res → res.exit = none →
      res.counter = r ∧
      ∀ d2 w2, (Trigger.GetCounter conf ⟨"", 0⟩ d2).2.2.2 = none →
        (Trigger.GetCounter conf ⟨"", 0⟩ d2).1.Count = r →
        ∃ res2, mainTurn conf d2 w2 res.counter res.localRepos = some res2 ∧
          res2.updates = [] ∧ res2.counter = r ∧ res2.exit = none) := by
  have hstored := GetCounter_reads_storedCount conf d hread
  rw [hr] at hstored
  have hsame : r = c → ∃ res, mainTurn conf d w c L = some res ∧ res.updates = [] ∧
      res.counter = c ∧ res.exit = none ∧ res.localRepos = L :=
    fun h => mainTurn_unchanged conf d w c L hread (hr.trans h)
  have hdiff : r ≠ c → ∀ u, update conf w L = some u →
      ∃ res, mainTurn conf d w c L = some res ∧ res.updates = [u] ∧
        res.localRepos = u.localRepos ∧
        (u.err = none → res.counter = r ∧ res.exit = none) ∧
        (u.err ≠ none → res.counter = c ∧ res.exit = some 1) := by
    intro h u hu
    have := mainTurn_changed conf d w c L u hread (by rw [hr]; exact h) hu
    rw [hr] at this
    exact this
  refine ⟨hstored, hsame, hdiff, ?_⟩
  intro res hres hexit
  have hcounter : res.counter = r := by
    by_cases h : r = c
    · obtain ⟨res1, h1, _, hc, _⟩ := hsame h
      rw [hres] at h1
      cases h1
      rw [hc, h]
    · cases hu : update conf w L with
      | none =>
        exfalso
        rcases hg : Trigger.GetCounter conf ⟨"", 0⟩ d with ⟨t1, d1, out, e⟩
        rw [hg] at hread hr
        simp only at hread hr
        subst hread
        have hne : ¬ c = t1.Count := fun h2 => h (hr.symm.trans h2.symm)
        simp [mainTurn, hg, hne, hu] at hres
      | some u =>
        obtain ⟨res1, h1, _, _, hok, hbad⟩ := hdiff h u hu
        rw [hres] at h1
        cases h1
        cases he : u.err with
        | none => exact (hok he).1
        | some e =>
          have := (hbad (by rw [he]; simp)).2
          rw [hexit] at this
          cases this
  refine ⟨hcounter, ?_⟩
  intro d2 w2 hread2 hr2
  obtain ⟨res2, h2, hu2, hc2, he2, _⟩ :=
    mainTurn_unchanged conf d2 w2 res.counter res.localRepos hread2 (hr2.trans hcounter.symm)
  exact ⟨res2, h2, hu2, hc2.trans hcounter, he2⟩

/-- Witness of C11: the stored count is 3 and the observed counter is 0, so the first turn
calls `update` once and sets the counter to 3; a second turn that reads 3 again calls
nothing. -/
theorem mainTurn_updates_only_on_change_witness :
    (Trigger.GetCounter exampleConf ⟨"", 0⟩ (exampleTable 3)).2.2.2 = none ∧
    (Trigger.GetCounter exampleConf ⟨"", 0⟩ (exampleTable 3)).1.Count = 3 ∧
    (∃ u, update exampleConf (exampleWorld ["a"]) [] = some u ∧ u.err = none) ∧
    (storedCount exampleConf.DynamoDBTriggerKey (exampleTable 3).table = .ok 3 ∧
    ((3 : Int) = 0 → ∃ res, mainTurn exampleConf (exampleTable 3) (exampleWorld ["a"]) 0 [] = some res ∧
      res.updates = [] ∧ res.counter = 0 ∧ res.exit = none ∧ res.localRepos = []) ∧
    ((3 : Int) ≠ 0 → ∀ u, update exampleConf (exampleWorld ["a"]) [] = some u →
      ∃ res, mainTurn exampleConf (exampleTable 3) (exampleWorld ["a"]) 0 [] = some res ∧
        res.updates = [u] ∧ res.localRepos = u.localRepos ∧
        (u.err = none → res.counter = 3 ∧ res.exit = none) ∧
        (u.err ≠ none → res.counter = 0 ∧ res.exit = some 1)) ∧
    (∀ res, mainTurn exampleConf (exampleTable 3) (exampleWorld ["a"]) 0 [] = some res →
      res.exit = none →
      res.counter = 3 ∧
      ∀ d2 w2, (Trigger.GetCounter exampleConf ⟨"", 0⟩ d2).2.2.2 = none →
        (Trigger.GetCounter exampleConf ⟨"", 0⟩ d2).1.Count = 3 →
        ∃ res2, mainTurn exampleConf d2 w2 res.counter res.localRepos = some res2 ∧
          res2.updates = [] ∧ res2.counter = 3 ∧ res2.exit = none)) :=
  ⟨by decide, by decide, by decide,
    mainTurn_updates_only_on_change exampleConf (exampleTable 3) (exampleWorld ["a"]) 0 3 []
      (by decide) (by decide)⟩

end Ahoy

end Goarder
